import Mathlib

/-!
Verification of the AliExpress Real Price userscript's data-acquisition and
price-decision pipeline against its natural-language specification.

The development shallowly embeds the JavaScript source (the 1.0.1 script, and
where the repository also ships the older 1.0.0 script with diverging cache
behaviour, both versions) into Lean:

* machine integers are modelled as `Nat`/`Int` with explicit `% 2 ^ 32`
  truncation where JavaScript coerces to 32-bit integers;
* JavaScript numbers used for prices and scores are modelled as exact
  rationals (`ℚ`);
* `Map` objects are modelled as insertion-ordered association lists;
* asynchronous control flow is modelled by explicit state passing, and each
  outbound call is modelled by the outcome the environment supplies for it.

Definitions are translated from the source.  Definitions whose names start
with `spec` (and the reference MD5 development `refMd5…`) instead follow the
specification's words and are compared with the source-derived definitions.
-/

namespace AliRealPrice

/-! ## Canonical data model (Product / Variant), from the parsers -/

/-- Monetary fields of a variant (`price` objects built by the parsers).
Formatted display strings are omitted: they are derived presentation data. -/
structure PriceInfo where
  value : ℚ
  discountedValue : ℚ
  discount : String
deriving DecidableEq, Repr

/-- Shipping fields of a variant (`shipping` objects built by the parsers). -/
structure ShippingInfo where
  cost : ℚ
  freeThreshold : Option ℚ
deriving DecidableEq, Repr

/-- One purchasable configuration of a product.  `price` and `shipping` are
optional because callers such as `getPriceRange` guard every access with
`?.` (the JavaScript value may be `undefined` on partially populated
variants). -/
structure Variant where
  id : String
  name : String
  price : Option PriceInfo
  shipping : Option ShippingInfo
  stock : ℚ
  isMainProduct : Bool
deriving DecidableEq, Repr

/-- Canonical resolved record for one listing. -/
structure Product where
  productId : String
  title : String
  variants : List Variant
deriving DecidableEq, Repr

/-! ## RateLimiter (part_000 lines 46-96)

Only the exponential-backoff state is modelled; the sliding-window
`waitForSlot` log delays callers but never changes results.  The constructor
hardcodes `backoffTime = 1000` and `maxBackoffTime = 32000`; neither is a
constructor parameter. -/

structure RateLimiter where
  backoffTime : ℕ
  maxBackoffTime : ℕ
deriving DecidableEq, Repr

/-- `new RateLimiter(...)`: backoff fields are hardcoded (lines 51-52). -/
def RateLimiter.init : RateLimiter := ⟨1000, 32000⟩

/-- Outcome the environment supplies for one invocation of the wrapped
action.  `retryable` stands for a rejection whose message contains
`FAIL_SYS_ILLEGAL_ACCESS` or `FAIL_SYS_USER_VALIDATE` (line 81); `fatal` is
any other rejection. -/
inductive AttemptOutcome (α : Type) where
  | ok (a : α)
  | retryable (msg : String)
  | fatal (msg : String)
deriving DecidableEq, Repr

/-- `RateLimiter.executeWithBackoff` (lines 73-95), driven by the list of
outcomes of successive attempts.  Returns the delivered result (`none` when
the supplied outcome list runs out with the loop still running), the list of
backoff sleeps actually performed, and the final limiter state. -/
def executeWithBackoff {α : Type} (rl : RateLimiter) :
    List (AttemptOutcome α) → Option (Except String α) × List ℕ × RateLimiter
  | [] => (none, [], rl)
  | .ok a :: _ => (some (.ok a), [], { rl with backoffTime := 1000 })
  | .fatal msg :: _ => (some (.error msg), [], rl)
  | .retryable msg :: rest =>
      if rl.backoffTime ≥ rl.maxBackoffTime then
        (some (.error msg), [], rl)
      else
        let rl2 : RateLimiter :=
          { rl with backoffTime := min (rl.backoffTime * 2) rl.maxBackoffTime }
        let r := executeWithBackoff rl2 rest
        (r.1, rl.backoffTime :: r.2.1, r.2.2)

/-! ## CacheManager (1.0.1 script, part_000 lines 996-1110; 1.0.0 script,
aliexpress-real-price.user.js lines 857-921)

The `Map` is an insertion-ordered association list (JavaScript `Map`
iteration order).  `storage` is the durable snapshot last persisted via
`GM.setValue('aliexpress_cache', …)` (in deserialized form).  `disabled`
models the global `isCacheDisabled` flag.  Timestamps are integers
(`Date.now()`). -/

structure CacheEntry where
  data : Product
  timestamp : ℤ
  expiresAt : ℤ
deriving DecidableEq, Repr

structure CacheConfig where
  duration : ℤ
  maxEntries : ℕ
deriving DecidableEq, Repr

/-- `CACHE_CONFIG.variants` (line 854). -/
def cacheConfigVariants : CacheConfig := ⟨86400000, 10000⟩

structure CacheState where
  entries : List (String × CacheEntry)
  storage : List (String × CacheEntry)
  disabled : Bool
deriving DecidableEq, Repr

/-- `Map.prototype.get`: lookup of the (unique) occurrence of a key. -/
def mapGet : List (String × CacheEntry) → String → Option CacheEntry
  | [], _ => none
  | p :: t, k => if p.1 = k then some p.2 else mapGet t k

/-- `Map.prototype.set`: overwrites in place (keeping the key's position in
iteration order) or appends a new key at the end. -/
def mapSet : List (String × CacheEntry) → String → CacheEntry →
    List (String × CacheEntry)
  | [], k, v => [(k, v)]
  | p :: t, k, v => if p.1 = k then (k, v) :: t else p :: mapSet t k v

/-- `Map.prototype.delete`: removes the (unique) occurrence of a key. -/
def mapDelete : List (String × CacheEntry) → String → List (String × CacheEntry)
  | [], _ => []
  | p :: t, k => if p.1 = k then t else p :: mapDelete t k

/-- `this._cache.keys().next().value`: the first key in iteration order. -/
def firstKey (m : List (String × CacheEntry)) : Option String :=
  m.head?.map Prod.fst

/-- `CacheManager.saveToStorage` (1.0.1, lines 1035-1051): persists the full
snapshot, but returns early without saving when the cache is disabled
(lines 1036-1039).  The 1.0.0 version (user.js lines 857-873) has the same
early return. -/
def saveToStorage (st : CacheState) : CacheState :=
  if st.disabled then st else { st with storage := st.entries }

/-- `CacheManager.get` (1.0.1, lines 1053-1066; identical logic in 1.0.0,
user.js lines 875-887).  Returns the value delivered to the caller and the
state after the call. -/
def cacheGet (st : CacheState) (k : String) (now : ℤ) :
    Option Product × CacheState :=
  if st.disabled then (none, st)
  else
    match mapGet st.entries k with
    | none => (none, st)
    | some entry =>
        if now > entry.expiresAt then
          (none, saveToStorage { st with entries := mapDelete st.entries k })
        else
          (some entry.data, st)

/-- The `!config || !config.maxEntries || !config.duration` falsy check of
`set`: a missing or zero field falls back to `CACHE_CONFIG.variants`. -/
def effectiveConfig (config : Option CacheConfig) : CacheConfig :=
  match config with
  | none => cacheConfigVariants
  | some c => if c.maxEntries = 0 ∨ c.duration = 0 then cacheConfigVariants else c

/-- `CacheManager.set`, 1.0.1 version (part_000 lines 1068-1100): evicts the
first key in iteration order, but only when the key being set is absent, the
size has reached `maxEntries`, and the oldest key is truthy
(`if (oldestKey)`, line 1082 — the empty string is falsy). -/
def cacheSet (st : CacheState) (k : String) (data : Product)
    (config : Option CacheConfig) (now : ℤ) : CacheState :=
  if st.disabled then st
  else
    let cfg := effectiveConfig config
    let exists0 := (mapGet st.entries k).isSome
    let entries1 :=
      if !exists0 ∧ st.entries.length ≥ cfg.maxEntries then
        match firstKey st.entries with
        | some oldestKey =>
            if oldestKey ≠ "" then mapDelete st.entries oldestKey else st.entries
        | none => st.entries
      else st.entries
    let entries2 := mapSet entries1 k ⟨data, now, now + cfg.duration⟩
    saveToStorage { st with entries := entries2 }

/-- `CacheManager.set`, 1.0.0 version (user.js lines 889-913): evicts the
first key whenever the size has reached `maxEntries`, even when the key
being set is already present (no `exists` check and no truthiness check;
`delete(undefined)` on an empty map is a no-op). -/
def cacheSetV100 (st : CacheState) (k : String) (data : Product)
    (config : Option CacheConfig) (now : ℤ) : CacheState :=
  if st.disabled then st
  else
    let cfg := effectiveConfig config
    let entries1 :=
      if st.entries.length ≥ cfg.maxEntries then
        match firstKey st.entries with
        | some oldestKey => mapDelete st.entries oldestKey
        | none => st.entries
      else st.entries
    let entries2 := mapSet entries1 k ⟨data, now, now + cfg.duration⟩
    saveToStorage { st with entries := entries2 }

/-- `CacheManager.clear`, 1.0.1 version (part_000 lines 1103-1107): empties
the map, then calls `saveToStorage`, which does nothing when the cache is
disabled. -/
def cacheClear (st : CacheState) : CacheState :=
  saveToStorage { st with entries := [] }

/-- `CacheManager.clear`, 1.0.0 version (user.js lines 915-920): empties the
map and writes the empty snapshot directly with `GM.setValue`, bypassing the
disabled check ("Always allow clearing storage, even if cache is currently
disabled"). -/
def cacheClearV100 (st : CacheState) : CacheState :=
  { st with entries := [], storage := [] }

/-! ## DataManager.fetchProductData (part_000 lines 1188-1447)

The environment supplies the outcome of each outbound collaborator: the
card-derived basic product (lines 1209-1243, DOM extraction), the primary
API tier (lines 1246-1367, `executeWithBackoff` + `parseProductData`), and
the page-fetch fallback tier (lines 1385-1387, `fetchDataFromProductPage`,
which can resolve with `null`). -/

structure FetchEnv where
  /-- Basic single-variant product extracted from the visible card, when a
  card was found (`productData`, lines 1209-1243). -/
  basic : Option Product
  /-- Outcome of the primary API tier after `executeWithBackoff` and
  `parseProductData` (lines 1246-1367). -/
  apiResult : Except String Product
  /-- Outcome of the page-fetch fallback tier (lines 1385-1387):
  `fetchDataFromProductPage` may reject, or resolve with `null`. -/
  pageResult : Except String (Option Product)
deriving Repr

/-- The merge of card data into a fetched product (lines 1358-1363 for the
API tier, lines 1391-1394 for the fallback tier): keep the fetched variants
unless empty, and the fetched title unless falsy (the empty string). -/
def mergeBasic (fetched : Product) (basic : Option Product) : Product :=
  match basic with
  | none => fetched
  | some b =>
      { fetched with
        variants := if fetched.variants.length > 0 then fetched.variants else b.variants,
        title := if fetched.title ≠ "" then fetched.title else b.title }

/-- The value of `fetchedData` at the end of the `try`/`catch` chain
(lines 1246-1435), as an `Except` whose error is the rethrown `apiError` of
line 1418.  Note line 1408: when a basic product exists it
**unconditionally** overwrites `fetchedData`, even when the page fallback
succeeded. -/
def determineFetched (env : FetchEnv) : Except String (Option Product) :=
  match env.apiResult with
  | .ok full => .ok (some (mergeBasic full env.basic))
  | .error apiError =>
      let afterPage : Option Product :=
        match env.pageResult with
        | .ok (some pageData) => some (mergeBasic pageData env.basic)
        | _ => none
      let afterBasic : Option Product :=
        match env.basic with
        | some basicData => some basicData
        | none => afterPage
      match afterBasic with
      | some d => .ok (some d)
      | none => .error apiError

/-- `DataManager.fetchProductData` (lines 1188-1447).  The rethrow of
`apiError` (line 1418) happens inside the outer `try` and is caught at line
1423, where — with no basic data available — `fetchedData` is set to `null`
(line 1433, the rethrow is commented out), so the function returns `null`
instead of propagating the failure.  The final data, when any, is written to
the cache under `product_<id>` before being returned (lines 1438-1441). -/
def fetchProductData (st : CacheState) (env : FetchEnv) (productId : String)
    (now : ℤ) : Option Product × CacheState :=
  let cacheKey := "product_" ++ productId
  let hit := cacheGet st cacheKey now
  match hit.1 with
  | some cachedData => (some cachedData, hit.2)
  | none =>
      let fetchedData : Option Product :=
        match determineFetched env with
        | .ok d => d
        | .error _ => none
      match fetchedData with
      | some d => (some d, cacheSet hit.2 cacheKey d (some cacheConfigVariants) now)
      | none => (none, hit.2)

/-! ## PriceContextCalculator (part_000 lines 2230-2326)

`calculatePageContext` receives the prices already extracted from the page's
cards (`extractPriceValue` over DOM text is the excluded UI layer's input
collection; only truthy, i.e. nonzero, prices are pushed, line 2237). -/

/-- One histogram bucket (lines 2282-2286).  `variance` holds the exact
radicand `Σ (p - mean)² / n`; the source's `calculateVariance`
(lines 2293-2298) reports `Math.sqrt` of this value, which is irrational in
general, so theorems state facts about `Real.sqrt c.variance`. -/
structure Cluster where
  centerPrice : ℚ
  count : ℕ
  variance : ℚ
deriving DecidableEq, Repr

structure Distribution where
  min : ℚ
  max : ℚ
  clusters : List Cluster
deriving DecidableEq, Repr

structure PageContext where
  median : ℚ
  lowerBound : ℚ
  upperBound : ℚ
  distribution : Distribution
deriving DecidableEq, Repr

/-- `prices.sort((a, b) => a - b)` — numeric ascending sort. -/
def sortAsc (prices : List ℚ) : List ℚ :=
  List.insertionSort (· ≤ ·) prices

/-- `calculateMedian` (lines 2255-2260); callers pass a sorted non-empty
list.  Out-of-range indices (only reachable on the empty list, which no
caller passes) default to 0. -/
def calculateMedian (prices : List ℚ) : ℚ :=
  let mid := prices.length / 2
  if prices.length % 2 = 0 then
    ((prices.getD (mid - 1) 0) + prices.getD mid 0) / 2
  else
    prices.getD mid 0

/-- The radicand of `calculateVariance` (lines 2293-2298): the mean squared
deviation.  The source returns `Math.sqrt` of this value. -/
def calculateVariance (prices : List ℚ) : ℚ :=
  let mean := prices.sum / (prices.length : ℚ)
  (prices.map (fun n => (n - mean) ^ 2)).sum / (prices.length : ℚ)

/-- `findPriceClusters` (lines 2270-2291): 5 equal-width half-open buckets
`[min + i·step, min + (i+1)·step)` over the sorted list; empty buckets are
skipped. -/
def findPriceClusters (prices : List ℚ) : List Cluster :=
  let range := prices.getLastD 0 - prices.headD 0
  let step := range / 5
  (List.range 5).filterMap (fun (i : ℕ) =>
    let bmin := prices.headD 0 + step * (i : ℚ)
    let bmax := prices.headD 0 + step * ((i : ℚ) + 1)
    let clusterPrices := prices.filter (fun p => bmin ≤ p ∧ p < bmax)
    if clusterPrices.length > 0 then
      some ⟨(bmin + bmax) / 2, clusterPrices.length, calculateVariance clusterPrices⟩
    else none)

/-- `Math.min(...prices)` on a non-empty list. -/
def jsMin (prices : List ℚ) : ℚ :=
  match prices with
  | [] => 0
  | h :: t => t.foldl min h

/-- `Math.max(...prices)` on a non-empty list. -/
def jsMax (prices : List ℚ) : ℚ :=
  match prices with
  | [] => 0
  | h :: t => t.foldl max h

/-- `calculateDistribution` (lines 2262-2268). -/
def calculateDistribution (prices : List ℚ) : Distribution :=
  ⟨jsMin prices, jsMax prices, findPriceClusters prices⟩

/-- `calculatePageContext` (lines 2231-2253), over the list of prices
extracted from the page's cards. -/
def calculatePageContext (prices : List ℚ) : Option PageContext :=
  if prices.length = 0 then none
  else
    let sorted := sortAsc prices
    let median := calculateMedian sorted
    let threshold := median * (3 / 10)
    some
      { median := median
        lowerBound := median - threshold
        upperBound := median + threshold
        distribution := calculateDistribution sorted }

/-- `variant.price.discountedValue` — the scoring code accesses the price
without a guard; a missing price is modelled as 0 (theorems about scoring
assume every scored variant carries a price). -/
def variantDiscounted (v : Variant) : ℚ :=
  match v.price with
  | some p => p.discountedValue
  | none => 0

/-- `calculateVariantScore` (lines 2311-2320). -/
def calculateVariantScore (v : Variant) (context : PageContext) : ℚ :=
  let price := variantDiscounted v
  let distanceScore := 1 / (|price - context.median| + 1)
  let inRange :=
    if context.lowerBound ≤ price ∧ price ≤ context.upperBound then
      (3 / 2 : ℚ)
    else (1 / 2 : ℚ)
  let productTypeMultiplier := if v.isMainProduct then (13 / 10 : ℚ) else (7 / 10 : ℚ)
  distanceScore * inRange * productTypeMultiplier

/-- Stable insertion of a scored variant into a descending-sorted list:
earlier input elements stay in front of later ones with an equal score.
This is the observable result of `sort((a, b) => b.score - a.score)`
(`Array.prototype.sort` is stable). -/
def insertDesc (p : Variant × ℚ) : List (Variant × ℚ) → List (Variant × ℚ)
  | [] => [p]
  | q :: t => if q.2 > p.2 then q :: insertDesc p t else p :: q :: t

/-- Stable descending sort by score. -/
def sortByScoreDesc : List (Variant × ℚ) → List (Variant × ℚ)
  | [] => []
  | p :: t => insertDesc p (sortByScoreDesc t)

/-- `findBestMatchingVariant` (lines 2300-2309).  The source returns the
scored copy `{...variant, score}` of the winning variant; the model returns
the underlying variant (its fields are unchanged by the copy).  On a falsy
context or an empty list the source returns `variants[0]`, which is
`undefined` (`none`) for an empty list. -/
def findBestMatchingVariant (variants : List Variant)
    (context : Option PageContext) : Option Variant :=
  match context with
  | none => variants.head?
  | some ctx =>
      if variants.length = 0 then variants.head?
      else
        ((sortByScoreDesc
            (variants.map (fun v => (v, calculateVariantScore v ctx)))).head?).map
          Prod.fst

/-! ## Variant-name decoding and accessory classification
(part_000 lines 1894-1904, 1993-2000, 2163-2189)

Names are modelled as `List Char` so that all operations reduce in the
kernel.  `Char.toLower` agrees with JavaScript `toLowerCase` on the ASCII
range, which covers every keyword. -/

/-- `String.prototype.split('#')`. -/
def splitHash : List Char → List (List Char)
  | [] => [[]]
  | c :: t =>
      let r := splitHash t
      if c = '#' then [] :: r
      else
        match r with
        | [] => [[c]]
        | h :: t2 => (c :: h) :: t2

/-- `s.includes(pat)` on strings. -/
def strIncludes (s pat : List Char) : Bool :=
  match s with
  | [] => pat.isEmpty
  | c :: t => pat.isPrefixOf (c :: t) || strIncludes t pat

/-- `getSkuName` (lines 1894-1899): `skuAttr.split('#')[1] || 'Default'` —
a missing part (no `#`) and the falsy empty part both yield `"Default"`.
The HTML-tier variant mapping (line 2168) computes the same expression. -/
def getSkuName (skuAttr : List Char) : List Char :=
  let parts := splitHash skuAttr
  match parts.get? 1 with
  | some s => if s.isEmpty then "Default".toList else s
  | none => "Default".toList

/-- The keyword list of `isAccessory` (lines 1994-1998). -/
def accessoryKeywords : List (List Char) :=
  ["case".toList, "cover".toList, "protector".toList, "cable".toList,
   "adapter".toList, "charger".toList, "holder".toList, "stand".toList,
   "accessory".toList, "kit".toList, "pedal".toList, "spare".toList,
   "replacement".toList, "tool".toList, "bag".toList, "box".toList]

/-- `isAccessory` (lines 1993-2000): the caller passes an
already-lowercased name. -/
def isAccessory (name : List Char) : Bool :=
  accessoryKeywords.any (fun keyword => strIncludes name keyword)

/-- `isMainProductBySku` (lines 1901-1904): lowercases and classifies the
**entire raw `skuAttr` string** (`(sku.skuAttr || '').toLowerCase()`), not
the decoded display name. -/
def isMainProductBySku (skuAttr : List Char) : Bool :=
  !isAccessory (skuAttr.map Char.toLower)

/-- The `name` and `isMainProduct` fields produced for one SKU by the
page-HTML fallback parser `extractProductDataFromHTML` (lines 2166-2189):
the name is decoded from `skuAttr`, and `isMainProduct` is the literal
`true` (line 2187) — no keyword classification happens in this tier. -/
def htmlTierNameAndMain (skuAttr : List Char) : List Char × Bool :=
  (getSkuName skuAttr, true)

/-- The specification's classifier, from its words: a variant is not main
exactly when its **decoded display name**, compared case-insensitively,
contains one of the keywords. -/
def specIsMainProduct (decodedName : List Char) : Bool :=
  !accessoryKeywords.any (fun keyword =>
    strIncludes (decodedName.map Char.toLower) keyword)

/-! ## DOMEnhancer.getPriceRange (part_000 lines 2707-2728) -/

structure PriceRange where
  min : ℚ
  max : ℚ
deriving DecidableEq, Repr

/-- `v.price?.discountedValue || 0`: a missing price, like a falsy (zero)
value, contributes 0. -/
def priceOrZero (v : Variant) : ℚ :=
  match v.price with
  | some p => p.discountedValue
  | none => 0

/-- `v.shipping?.cost || 0`. -/
def shippingOrZero (v : Variant) : ℚ :=
  match v.shipping with
  | some s => s.cost
  | none => 0

/-- `getPriceRange` (lines 2707-2728); `variants` may be absent (`none`). -/
def getPriceRange (variants : Option (List Variant)) : PriceRange :=
  match variants with
  | none => ⟨0, 0⟩
  | some vs =>
      if vs.length = 0 then ⟨0, 0⟩
      else
        let totalPrices := vs.map (fun v => priceOrZero v + shippingOrZero v)
        if totalPrices.length = 0 then ⟨0, 0⟩
        else ⟨jsMin totalPrices, jsMax totalPrices⟩

/-! ## Association-list (Map) helper lemmas -/

theorem mapGet_mapSet_self (m : List (String × CacheEntry)) (k : String)
    (v : CacheEntry) : mapGet (mapSet m k v) k = some v := by
  induction m with
  | nil => simp [mapSet, mapGet]
  | cons p t ih =>
      by_cases h : p.1 = k
      · simp [mapSet, mapGet, h]
      · simp [mapSet, mapGet, h, ih]

theorem mapSet_length_of_present (m : List (String × CacheEntry)) (k : String)
    (v : CacheEntry) (h : (mapGet m k).isSome) :
    (mapSet m k v).length = m.length := by
  induction m with
  | nil => simp [mapGet] at h
  | cons p t ih =>
      by_cases hp : p.1 = k
      · simp [mapSet, hp]
      · simp [mapGet, hp] at h
        simp [mapSet, hp, ih h]

theorem mapSet_of_absent (m : List (String × CacheEntry)) (k : String)
    (v : CacheEntry) (h : mapGet m k = none) : mapSet m k v = m ++ [(k, v)] := by
  induction m with
  | nil => simp [mapSet]
  | cons p t ih =>
      by_cases hp : p.1 = k
      · simp [mapGet, hp] at h
      · simp [mapGet, hp] at h
        simp [mapSet, hp, ih h]

theorem mapDelete_cons_self (p : String × CacheEntry)
    (t : List (String × CacheEntry)) : mapDelete (p :: t) p.1 = t := by
  simp [mapDelete]

theorem mapGet_mapDelete_self (m : List (String × CacheEntry)) (k : String)
    (hn : (m.map Prod.fst).Nodup) : mapGet (mapDelete m k) k = none := by
  induction m with
  | nil => simp [mapDelete, mapGet]
  | cons p t ih =>
      simp only [List.map_cons, List.nodup_cons] at hn
      by_cases hp : p.1 = k
      · subst hp
        have : ∀ q ∈ t, q.1 ≠ p.1 := by
          intro q hq hqe
          exact hn.1 (hqe ▸ List.mem_map_of_mem Prod.fst hq)
        simp only [mapDelete, if_pos rfl]
        clear ih hn
        induction t with
        | nil => simp [mapGet]
        | cons q t2 ih2 =>
            have hq : q.1 ≠ p.1 := this q (by simp)
            simp [mapGet, hq]
            exact ih2 (fun r hr => this r (by simp [hr]))
      · simp [mapDelete, hp, mapGet, ih hn.2]

/-! ## Claim C3 — backoff policy -/

/-- Claim C3 (amended): a retryable failure is propagated when the current
backoff has reached the maximum, and otherwise the limiter sleeps for the
current backoff, doubles it capped at the maximum, and retries; a success
resets the backoff to 1000 ms.  The backoff bounds are hardcoded
(initial 1000 ms, maximum 32000 ms): with them, four consecutive retryable
failures followed by a success produce the waits `[1000, 2000, 4000, 8000]`,
and the next failure after that success again waits 1000 ms.  (With a
maximum of 8000 ms, as the claim instantiates it, the fourth consecutive
failure would instead be propagated after waits `[1000, 2000, 4000]`.) -/
theorem C3_executeWithBackoff_policy :
    (∀ (α : Type) (rl : RateLimiter) (msg : String)
        (rest : List (AttemptOutcome α)),
        rl.backoffTime ≥ rl.maxBackoffTime →
        executeWithBackoff rl (.retryable msg :: rest) =
          (some (.error msg), [], rl)) ∧
    (∀ (α : Type) (rl : RateLimiter) (msg : String)
        (rest : List (AttemptOutcome α)),
        rl.backoffTime < rl.maxBackoffTime →
        executeWithBackoff rl (.retryable msg :: rest) =
          ((executeWithBackoff
              { rl with backoffTime := min (rl.backoffTime * 2) rl.maxBackoffTime }
              rest).1,
           rl.backoffTime ::
             (executeWithBackoff
                { rl with backoffTime := min (rl.backoffTime * 2) rl.maxBackoffTime }
                rest).2.1,
           (executeWithBackoff
              { rl with backoffTime := min (rl.backoffTime * 2) rl.maxBackoffTime }
              rest).2.2)) ∧
    (∀ (α : Type) (rl : RateLimiter) (a : α) (rest : List (AttemptOutcome α)),
        executeWithBackoff rl (.ok a :: rest) =
          (some (.ok a), [], { rl with backoffTime := 1000 })) ∧
    (executeWithBackoff RateLimiter.init
        [AttemptOutcome.retryable (α := ℕ) "FAIL_SYS_ILLEGAL_ACCESS",
         .retryable "FAIL_SYS_ILLEGAL_ACCESS",
         .retryable "FAIL_SYS_ILLEGAL_ACCESS",
         .retryable "FAIL_SYS_ILLEGAL_ACCESS", .ok 7] =
      (some (.ok 7), [1000, 2000, 4000, 8000], ⟨1000, 32000⟩)) ∧
    (executeWithBackoff (⟨1000, 32000⟩ : RateLimiter)
        [AttemptOutcome.retryable (α := ℕ) "FAIL_SYS_USER_VALIDATE", .ok 3] =
      (some (.ok 3), [1000], ⟨1000, 32000⟩)) := by
  refine ⟨?_, ?_, ?_, rfl, rfl⟩
  · intro α rl msg rest h
    simp [executeWithBackoff, h]
  · intro α rl msg rest h
    simp [executeWithBackoff, Nat.not_le_of_lt h, le_refl]
  · intro α rl a rest
    simp [executeWithBackoff]

/-- Witness for C3: the propagate-at-maximum rule discharged at a limiter
whose backoff has reached the maximum. -/
theorem C3_executeWithBackoff_policy_witness :
    (32000 : ℕ) ≥ 32000 ∧
    executeWithBackoff (⟨32000, 32000⟩ : RateLimiter)
        [AttemptOutcome.retryable (α := ℕ) "FAIL_SYS_USER_VALIDATE"] =
      (some (.error "FAIL_SYS_USER_VALIDATE"), [], ⟨32000, 32000⟩) :=
  ⟨by decide,
   C3_executeWithBackoff_policy.1 ℕ ⟨32000, 32000⟩ "FAIL_SYS_USER_VALIDATE" []
     (by decide)⟩

/-- Counterexample for C3 as stated: with `initialBackoff = 1000` and
`maxBackoff = 8000`, four consecutive retryable failures do **not** produce
waits `[1000, 2000, 4000, 8000]` followed by the success — the fourth
failure finds the backoff already at the maximum and is propagated, after
waits `[1000, 2000, 4000]` only. -/
theorem C3_executeWithBackoff_counterexample :
    executeWithBackoff (⟨1000, 8000⟩ : RateLimiter)
        [AttemptOutcome.retryable (α := ℕ) "FAIL_SYS_ILLEGAL_ACCESS",
         .retryable "FAIL_SYS_ILLEGAL_ACCESS",
         .retryable "FAIL_SYS_ILLEGAL_ACCESS",
         .retryable "FAIL_SYS_ILLEGAL_ACCESS", .ok 7] =
      (some (.error "FAIL_SYS_ILLEGAL_ACCESS"), [1000, 2000, 4000], ⟨8000, 8000⟩) ∧
    ([1000, 2000, 4000] : List ℕ) ≠ [1000, 2000, 4000, 8000] := by
  exact ⟨rfl, by decide⟩

/-! ## Claims C4, C5, C6 — PersistentCache -/

/-- A sample product/entry used by concrete cache states. -/
def wProduct : Product := ⟨"1005", "sample", []⟩

def wEntry : CacheEntry := ⟨wProduct, 0, 100⟩

/-- Claim C6 (confirmed): `get` returns the data of a present, unexpired
entry and leaves the state unchanged; on an expired entry it deletes it and
persists the updated snapshot (which no longer resolves the key) before
returning `null`; when caching is disabled it returns `null` without
reading or writing the store. -/
theorem C6_cacheGet_behaviour (st : CacheState) (k : String) (now : ℤ) :
    (st.disabled = true → cacheGet st k now = (none, st)) ∧
    (st.disabled = false → mapGet st.entries k = none →
        cacheGet st k now = (none, st)) ∧
    (∀ e, st.disabled = false → mapGet st.entries k = some e →
        (now ≤ e.expiresAt → cacheGet st k now = (some e.data, st)) ∧
        (e.expiresAt < now →
          cacheGet st k now =
            (none,
             { entries := mapDelete st.entries k,
               storage := mapDelete st.entries k,
               disabled := false }) ∧
          ((st.entries.map Prod.fst).Nodup →
            mapGet (cacheGet st k now).2.storage k = none))) := by
  refine ⟨?_, ?_, ?_⟩
  · intro h; simp [cacheGet, h]
  · intro h hl; simp [cacheGet, h, hl]
  · intro e h hl
    constructor
    · intro hexp
      simp [cacheGet, h, hl, not_lt_of_le hexp]
    · intro hexp
      have hgt : now > e.expiresAt := hexp
      constructor
      · simp [cacheGet, h, hl, hgt, saveToStorage]
      · intro hnd
        simp [cacheGet, h, hl, hgt, saveToStorage, mapGet_mapDelete_self _ _ hnd]

/-- Witness for C6: a present, unexpired entry is returned unchanged. -/
theorem C6_cacheGet_behaviour_witness :
    mapGet [("k", wEntry)] "k" = some wEntry ∧
    cacheGet ⟨[("k", wEntry)], [("k", wEntry)], false⟩ "k" 50 =
      (some wEntry.data, ⟨[("k", wEntry)], [("k", wEntry)], false⟩) :=
  ⟨rfl,
   ((C6_cacheGet_behaviour ⟨[("k", wEntry)], [("k", wEntry)], false⟩ "k" 50).2.2
       wEntry rfl rfl).1 (by decide)⟩

/-- Claim C5 (code bug): with the disabled flag set, the 1.0.1 `clear()`
empties the in-memory map but its `saveToStorage` call returns early, so the
durable snapshot keeps its stale entries — no empty snapshot is persisted.
The 1.0.0 `clear()` writes the empty snapshot directly, bypassing the flag
("Always allow clearing storage, even if cache is currently disabled"),
which is what the claim (and the spec) describe. -/
theorem C5_clear_disabled_divergence :
    cacheClear ⟨[("product_1005", wEntry)], [("product_1005", wEntry)], true⟩ =
      ⟨[], [("product_1005", wEntry)], true⟩ ∧
    ([("product_1005", wEntry)] : List (String × CacheEntry)) ≠ [] ∧
    cacheClearV100 ⟨[("product_1005", wEntry)], [("product_1005", wEntry)], true⟩ =
      ⟨[], [], true⟩ :=
  ⟨rfl, by simp, rfl⟩

/-- Claim C4 (amended): for the 1.0.1 `set` with caching enabled, a state
whose size does not exceed `config.maxEntries` and whose keys are non-empty:
after the call the size still does not exceed `config.maxEntries`;
overwriting a present key evicts nothing (the entry is replaced in place);
and when the key is absent and the size has reached `config.maxEntries`,
exactly one entry — the earliest inserted — is evicted before the insert. -/
theorem C4_cacheSet_bounded_fifo (st : CacheState) (k : String) (d : Product)
    (cfg : CacheConfig) (now : ℤ)
    (hd : st.disabled = false)
    (hme : cfg.maxEntries ≠ 0) (hdur : cfg.duration ≠ 0)
    (hnd : (st.entries.map Prod.fst).Nodup)
    (hne : ∀ p ∈ st.entries, p.1 ≠ "")
    (hsz : st.entries.length ≤ cfg.maxEntries) :
    ((cacheSet st k d (some cfg) now).entries.length ≤ cfg.maxEntries) ∧
    ((mapGet st.entries k).isSome →
        (cacheSet st k d (some cfg) now).entries =
          mapSet st.entries k ⟨d, now, now + cfg.duration⟩ ∧
        (cacheSet st k d (some cfg) now).entries.length = st.entries.length) ∧
    (mapGet st.entries k = none → st.entries.length = cfg.maxEntries →
        (cacheSet st k d (some cfg) now).entries =
          st.entries.tail ++ [(k, ⟨d, now, now + cfg.duration⟩)]) ∧
    (mapGet st.entries k = none → st.entries.length < cfg.maxEntries →
        (cacheSet st k d (some cfg) now).entries =
          st.entries ++ [(k, ⟨d, now, now + cfg.duration⟩)]) := by
  obtain ⟨entries, storage, disabled⟩ := st
  simp only at hd hnd hne hsz ⊢
  subst hd
  have hcfg : effectiveConfig (some cfg) = cfg := by
    simp [effectiveConfig, hme, hdur]
  have hsave : ∀ e2 : List (String × CacheEntry),
      (saveToStorage ⟨e2, storage, false⟩).entries = e2 := by
    intro e2; simp [saveToStorage]
  by_cases hex : (mapGet entries k).isSome
  · -- present key: no eviction, in-place overwrite
    have hset : (cacheSet ⟨entries, storage, false⟩ k d (some cfg) now).entries =
        mapSet entries k ⟨d, now, now + cfg.duration⟩ := by
      show (saveToStorage ⟨mapSet (if (!(mapGet entries k).isSome) = true ∧
          entries.length ≥ (effectiveConfig (some cfg)).maxEntries then _ else entries)
          k ⟨d, now, now + (effectiveConfig (some cfg)).duration⟩, storage, false⟩).entries = _
      rw [hcfg, if_neg (by simp [hex])]
      exact hsave _
    refine ⟨?_, fun _ => ⟨hset, ?_⟩, fun habs _ => ?_, fun habs _ => ?_⟩
    · rw [hset, mapSet_length_of_present _ _ _ hex]; exact hsz
    · rw [hset, mapSet_length_of_present _ _ _ hex]
    · rw [habs] at hex; simp at hex
    · rw [habs] at hex; simp at hex
  · -- absent key
    have habs : mapGet entries k = none := by
      cases h : mapGet entries k with
      | none => rfl
      | some e => rw [h] at hex; simp at hex
    by_cases hfull : entries.length ≥ cfg.maxEntries
    · -- at capacity: evict the head, then append
      have hlen : entries.length = cfg.maxEntries := le_antisymm hsz hfull
      have hpos : 0 < entries.length := by omega
      obtain ⟨p, t, hpt⟩ : ∃ p t, entries = p :: t := by
        cases hst : entries with
        | nil => rw [hst] at hpos; simp at hpos
        | cons p t => exact ⟨p, t, rfl⟩
      subst hpt
      have hp1 : p.1 ≠ "" := hne p (by simp)
      have htabs : mapGet t k = none := by
        by_cases hpk : p.1 = k
        · simp [mapGet, hpk] at habs
        · simpa [mapGet, hpk] using habs
      have hset : (cacheSet ⟨p :: t, storage, false⟩ k d (some cfg) now).entries =
          t ++ [(k, ⟨d, now, now + cfg.duration⟩)] := by
        show (saveToStorage ⟨mapSet (if (!(mapGet (p :: t) k).isSome) = true ∧
            (p :: t).length ≥ (effectiveConfig (some cfg)).maxEntries then
            match firstKey (p :: t) with
            | some oldestKey =>
                if oldestKey ≠ "" then mapDelete (p :: t) oldestKey else p :: t
            | none => p :: t
          else p :: t)
          k ⟨d, now, now + (effectiveConfig (some cfg)).duration⟩, storage,
          false⟩).entries = _
        rw [hcfg, if_pos ⟨by simp [habs], hfull⟩]
        show (saveToStorage ⟨mapSet (if p.1 ≠ "" then mapDelete (p :: t) p.1
            else p :: t) k ⟨d, now, now + cfg.duration⟩, storage, false⟩).entries = _
        rw [if_pos hp1, mapDelete_cons_self p t, mapSet_of_absent t k _ htabs]
        exact hsave _
      refine ⟨?_, fun hpres => ?_, fun _ _ => ?_, fun _ hlt => ?_⟩
      · rw [hset]; simp at hlen ⊢; omega
      · rw [habs] at hpres; simp at hpres
      · rw [hset]; rfl
      · omega
    · -- below capacity: plain append
      have hset : (cacheSet ⟨entries, storage, false⟩ k d (some cfg) now).entries =
          entries ++ [(k, ⟨d, now, now + cfg.duration⟩)] := by
        show (saveToStorage ⟨mapSet (if (!(mapGet entries k).isSome) = true ∧
            entries.length ≥ (effectiveConfig (some cfg)).maxEntries then _ else entries)
            k ⟨d, now, now + (effectiveConfig (some cfg)).duration⟩, storage,
            false⟩).entries = _
        rw [hcfg, if_neg (by intro hc; exact hfull hc.2),
          mapSet_of_absent _ _ _ habs]
        exact hsave _
      refine ⟨?_, fun hpres => ?_, fun _ hlen => ?_, fun _ _ => ?_⟩
      · rw [hset]; simp; omega
      · rw [habs] at hpres; simp at hpres
      · omega
      · exact hset

/-- Witness for C4: inserting a fresh key into an enabled, at-capacity
cache with `maxEntries = 1` evicts the earliest entry and inserts the new
one. -/
theorem C4_cacheSet_bounded_fifo_witness :
    ((⟨[("a", wEntry)], [], false⟩ : CacheState).disabled = false ∧
     (10 : ℤ) ≠ 0 ∧ (1 : ℕ) ≠ 0 ∧
     ((([("a", wEntry)] : List (String × CacheEntry)).map Prod.fst).Nodup) ∧
     (∀ p ∈ ([("a", wEntry)] : List (String × CacheEntry)), p.1 ≠ "") ∧
     ([("a", wEntry)] : List (String × CacheEntry)).length ≤ 1) ∧
    ((cacheSet ⟨[("a", wEntry)], [], false⟩ "b" wProduct (some ⟨10, 1⟩) 0).entries.length ≤ 1) :=
  ⟨⟨rfl, by decide, by decide, by simp, by simp, by simp⟩,
   (C4_cacheSet_bounded_fifo ⟨[("a", wEntry)], [], false⟩ "b" wProduct ⟨10, 1⟩ 0
      rfl (by decide) (by decide) (by simp) (by simp) (by simp)).1⟩

/-- Counterexample for C4 as stated: (i) from a state already above
`maxEntries` the size still exceeds `maxEntries` after `set`; (ii) when the
oldest key is the empty string (falsy), nothing is evicted and the bound is
exceeded; (iii) in the 1.0.0 `set`, overwriting a present key at capacity
evicts the unrelated oldest entry; (iv) with caching disabled, no eviction
or insert happens at all. -/
theorem C4_cacheSet_counterexample :
    ((cacheSet ⟨[("a", wEntry), ("b", wEntry)], [], false⟩ "c" wProduct
        (some ⟨10, 1⟩) 0).entries.length = 2 ∧ ¬((2 : ℕ) ≤ 1)) ∧
    ((cacheSet ⟨[("", wEntry)], [], false⟩ "x" wProduct (some ⟨10, 1⟩) 0).entries =
        [("", wEntry), ("x", ⟨wProduct, 0, 10⟩)]) ∧
    ((cacheSetV100 ⟨[("a", wEntry), ("b", wEntry)], [], false⟩ "b" wProduct
        (some ⟨10, 2⟩) 0).entries = [("b", ⟨wProduct, 0, 10⟩)]) ∧
    ((cacheSet ⟨[("a", wEntry)], [], true⟩ "b" wProduct (some ⟨10, 1⟩) 0).entries =
        [("a", wEntry)]) :=
  ⟨⟨rfl, by decide⟩, rfl, rfl, rfl⟩

/-! ## Claim C2 — resolver caching and failure propagation -/

theorem cacheSet_variants_mapGet_self (st : CacheState) (k : String)
    (d : Product) (now : ℤ) (hd : st.disabled = false) :
    mapGet (cacheSet st k d (some cacheConfigVariants) now).entries k =
      some ⟨d, now, now + 86400000⟩ := by
  obtain ⟨entries, storage, disabled⟩ := st
  simp only at hd
  subst hd
  have hcfg : effectiveConfig (some cacheConfigVariants) = cacheConfigVariants := by
    norm_num [effectiveConfig, cacheConfigVariants]
  simp only [cacheSet, Bool.false_eq_true, if_false, hcfg, saveToStorage]
  exact mapGet_mapSet_self _ _ _

/-- Claim C2 (amended): on a cache miss, whatever Product the tier chain
ultimately determines — primary API, page-fetch fallback, or basic snippet
— is written to the cache under `product_<id>` before being returned (and,
with caching enabled, is then resolvable under that key in the resulting
state); but when no tier yields any Product, the resolver returns `null`:
the primary-tier failure is rethrown internally (line 1418) only to be
caught by the resolver's own outer handler (lines 1423-1434), which
suppresses it. -/
theorem C2_fetchProductData_cache_and_null (st : CacheState) (env : FetchEnv)
    (productId : String) (now : ℤ)
    (hmiss : (cacheGet st ("product_" ++ productId) now).1 = none) :
    (∀ d, determineFetched env = .ok (some d) →
        fetchProductData st env productId now =
          (some d,
           cacheSet (cacheGet st ("product_" ++ productId) now).2
             ("product_" ++ productId) d (some cacheConfigVariants) now)) ∧
    (∀ d, determineFetched env = .ok (some d) →
        (cacheGet st ("product_" ++ productId) now).2.disabled = false →
        mapGet (fetchProductData st env productId now).2.entries
            ("product_" ++ productId) = some ⟨d, now, now + 86400000⟩) ∧
    (∀ e, determineFetched env = .error e →
        fetchProductData st env productId now =
          (none, (cacheGet st ("product_" ++ productId) now).2)) ∧
    (∀ full, env.apiResult = .ok full →
        determineFetched env = .ok (some (mergeBasic full env.basic))) ∧
    (∀ e, env.apiResult = .error e → env.basic = none →
        (∀ p, env.pageResult ≠ .ok (some p)) →
        determineFetched env = .error e) := by
  refine ⟨?_, ?_, ?_, ?_, ?_⟩
  · intro d hdet
    simp only [fetchProductData, hmiss, hdet]
  · intro d hdet hdis
    simp only [fetchProductData, hmiss, hdet]
    exact cacheSet_variants_mapGet_self _ _ _ _ hdis
  · intro e hdet
    simp only [fetchProductData, hmiss, hdet]
  · intro full hapi
    simp only [determineFetched, hapi]
  · intro e hapi hbasic hpage
    simp only [determineFetched, hapi, hbasic]

def wVariant : Variant :=
  ⟨"default", "Default", some ⟨5, 5, ""⟩, some ⟨0, none⟩, 999, true⟩

def wApiProduct : Product := ⟨"1005", "gadget", [wVariant]⟩

/-- Witness for C2: a successful primary-tier resolution from an empty,
enabled cache is returned and stored under `product_<id>`. -/
theorem C2_fetchProductData_cache_and_null_witness :
    (cacheGet ⟨[], [], false⟩ ("product_" ++ "1005") 0).1 = none ∧
    fetchProductData ⟨[], [], false⟩ ⟨none, .ok wApiProduct, .error "net"⟩ "1005" 0 =
      (some wApiProduct,
       cacheSet (cacheGet ⟨[], [], false⟩ ("product_" ++ "1005") 0).2
         ("product_" ++ "1005") wApiProduct (some cacheConfigVariants) 0) :=
  ⟨rfl,
   (C2_fetchProductData_cache_and_null ⟨[], [], false⟩
       ⟨none, .ok wApiProduct, .error "net"⟩ "1005" 0 rfl).1 wApiProduct rfl⟩

/-- Counterexample for C2 as stated: with no basic snippet, a failed primary
tier and a failed fallback tier, the resolver returns `null` with the cache
untouched — the primary-tier failure (`FAIL_SYS_ILLEGAL_ACCESS`, the root
cause computed at line 1418) is not propagated to the caller. -/
theorem C2_fetchProductData_counterexample :
    determineFetched ⟨none, .error "FAIL_SYS_ILLEGAL_ACCESS", .error "net"⟩ =
      .error "FAIL_SYS_ILLEGAL_ACCESS" ∧
    fetchProductData ⟨[], [], false⟩
        ⟨none, .error "FAIL_SYS_ILLEGAL_ACCESS", .error "net"⟩ "1005" 0 =
      (none, ⟨[], [], false⟩) :=
  ⟨rfl, rfl⟩

/-! ## Claim C8 — accessory classification -/

theorem strIncludes_iff (s pat : List Char) :
    strIncludes s pat = true ↔ ∃ l r, s = l ++ pat ++ r := by
  induction s with
  | nil =>
      simp only [strIncludes, List.isEmpty_iff]
      constructor
      · intro h; exact ⟨[], [], by simp [h]⟩
      · rintro ⟨l, r, h⟩
        exact (List.append_eq_nil.mp (List.append_eq_nil.mp h.symm).1).2
  | cons c t ih =>
      simp only [strIncludes, Bool.or_eq_true, List.isPrefixOf_iff_prefix, ih]
      constructor
      · rintro (⟨r, hr⟩ | ⟨l, r, hlr⟩)
        · exact ⟨[], r, by simp [hr]⟩
        · exact ⟨c :: l, r, by simp [hlr]⟩
      · rintro ⟨l, r, hlr⟩
        cases l with
        | nil => exact Or.inl ⟨r, by simpa using hlr.symm⟩
        | cons c2 l2 =>
            simp only [List.cons_append, List.cons.injEq] at hlr
            exact Or.inr ⟨l2, r, hlr.2⟩

/-- Claim C8 (amended): in the primary API parser, a variant's
`isMainProduct` is `false` exactly when the **entire raw `skuAttr`
string**, lowercased, contains one of the accessory keywords (the decoded
display name is only the portion after the first `#`, but classification
inspects the whole attribute, property ids included); the page-HTML
fallback parser performs no classification and always sets
`isMainProduct = true`. -/
theorem C8_isMainProduct_classification :
    (∀ skuAttr : List Char,
        isMainProductBySku skuAttr = false ↔
          ∃ kw ∈ accessoryKeywords,
            ∃ l r, skuAttr.map Char.toLower = l ++ kw ++ r) ∧
    (∀ skuAttr : List Char,
        (htmlTierNameAndMain skuAttr).1 = getSkuName skuAttr ∧
        (htmlTierNameAndMain skuAttr).2 = true) := by
  constructor
  · intro skuAttr
    simp only [isMainProductBySku, Bool.not_eq_false', isAccessory,
      List.any_eq_true, strIncludes_iff]
  · intro skuAttr
    exact ⟨rfl, rfl⟩

/-- Counterexample for C8 as stated: (i) in the API tier, an attribute
whose decoded display name (`Red;5:361386`) contains no keyword is still
classified as an accessory because the raw attribute contains `case` in a
different property's label; (ii) in the HTML tier, a variant whose decoded
name is `Phone Case` (an accessory per the claim) still gets
`isMainProduct = true`. -/
theorem C8_isMainProduct_counterexample :
    getSkuName "14:350685#Red;5:361386#Case".toList = "Red;5:361386".toList ∧
    specIsMainProduct (getSkuName "14:350685#Red;5:361386#Case".toList) = true ∧
    isMainProductBySku "14:350685#Red;5:361386#Case".toList = false ∧
    getSkuName "14:200#Phone Case".toList = "Phone Case".toList ∧
    specIsMainProduct (getSkuName "14:200#Phone Case".toList) = false ∧
    (htmlTierNameAndMain "14:200#Phone Case".toList).2 = true := by
  refine ⟨by decide, by decide, by decide, by decide, by decide, rfl⟩

/-! ## Claim C10 — getPriceRange -/

theorem foldl_min_mem (t : List ℚ) (a : ℚ) :
    t.foldl min a = a ∨ t.foldl min a ∈ t := by
  induction t generalizing a with
  | nil => exact Or.inl rfl
  | cons c t ih =>
      have hstep : (c :: t).foldl min a = t.foldl min (min a c) := rfl
      rcases ih (min a c) with h | h
      · rcases min_choice a c with hc | hc
        · rw [hstep, h, hc]; exact Or.inl rfl
        · rw [hstep, h, hc]; exact Or.inr (List.mem_cons_self c t)
      · rw [hstep]; exact Or.inr (List.mem_cons_of_mem c h)

theorem foldl_min_le (t : List ℚ) (a : ℚ) :
    t.foldl min a ≤ a ∧ ∀ x ∈ t, t.foldl min a ≤ x := by
  induction t generalizing a with
  | nil => exact ⟨le_refl a, by simp⟩
  | cons c t ih =>
      obtain ⟨h1, h2⟩ := ih (min a c)
      refine ⟨?_, ?_⟩
      · exact le_trans h1 (min_le_left a c)
      · intro x hx
        rcases List.mem_cons.mp hx with rfl | hx
        · exact le_trans h1 (min_le_right a x)
        · exact h2 x hx

theorem foldl_max_mem (t : List ℚ) (a : ℚ) :
    t.foldl max a = a ∨ t.foldl max a ∈ t := by
  induction t generalizing a with
  | nil => exact Or.inl rfl
  | cons c t ih =>
      have hstep : (c :: t).foldl max a = t.foldl max (max a c) := rfl
      rcases ih (max a c) with h | h
      · rcases max_choice a c with hc | hc
        · rw [hstep, h, hc]; exact Or.inl rfl
        · rw [hstep, h, hc]; exact Or.inr (List.mem_cons_self c t)
      · rw [hstep]; exact Or.inr (List.mem_cons_of_mem c h)

theorem foldl_max_le (t : List ℚ) (a : ℚ) :
    a ≤ t.foldl max a ∧ ∀ x ∈ t, x ≤ t.foldl max a := by
  induction t generalizing a with
  | nil => exact ⟨le_refl a, by simp⟩
  | cons c t ih =>
      obtain ⟨h1, h2⟩ := ih (max a c)
      refine ⟨?_, ?_⟩
      · exact le_trans (le_max_left a c) h1
      · intro x hx
        rcases List.mem_cons.mp hx with rfl | hx
        · exact le_trans (le_max_right a x) h1
        · exact h2 x hx

theorem jsMin_spec (l : List ℚ) (hl : l ≠ []) :
    jsMin l ∈ l ∧ ∀ x ∈ l, jsMin l ≤ x := by
  match l, hl with
  | h :: t, _ =>
      constructor
      · rcases foldl_min_mem t h with he | he
        · simp [jsMin, he]
        · simp [jsMin, List.mem_cons]; right; exact he
      · intro x hx
        rcases List.mem_cons.mp hx with rfl | hx
        · exact (foldl_min_le t x).1
        · exact (foldl_min_le t h).2 x hx

theorem jsMax_spec (l : List ℚ) (hl : l ≠ []) :
    jsMax l ∈ l ∧ ∀ x ∈ l, x ≤ jsMax l := by
  match l, hl with
  | h :: t, _ =>
      constructor
      · rcases foldl_max_mem t h with he | he
        · simp [jsMax, he]
        · simp [jsMax, List.mem_cons]; right; exact he
      · intro x hx
        rcases List.mem_cons.mp hx with rfl | hx
        · exact (foldl_max_le t x).1
        · exact (foldl_max_le t h).2 x hx

/-- Claim C10 (confirmed): `getPriceRange` returns `{min: 0, max: 0}` for
an absent or empty variant list; otherwise a missing price or shipping
contributes 0 to a variant's total, and the returned pair is the attained
minimum and maximum of the per-variant `discountedValue + shippingCost`
totals — the call is total on partially populated variants. -/
theorem C10_getPriceRange_robust :
    getPriceRange none = ⟨0, 0⟩ ∧
    getPriceRange (some []) = ⟨0, 0⟩ ∧
    (∀ v : Variant, v.price = none → priceOrZero v = 0) ∧
    (∀ v : Variant, v.shipping = none → shippingOrZero v = 0) ∧
    (∀ vs : List Variant, vs ≠ [] →
        (getPriceRange (some vs)).min ∈
            vs.map (fun v => priceOrZero v + shippingOrZero v) ∧
        (getPriceRange (some vs)).max ∈
            vs.map (fun v => priceOrZero v + shippingOrZero v) ∧
        ∀ t ∈ vs.map (fun v => priceOrZero v + shippingOrZero v),
            (getPriceRange (some vs)).min ≤ t ∧ t ≤ (getPriceRange (some vs)).max) := by
  refine ⟨rfl, rfl, ?_, ?_, ?_⟩
  · intro v hv; simp [priceOrZero, hv]
  · intro v hv; simp [shippingOrZero, hv]
  · intro vs hvs
    have hlen : vs.length ≠ 0 := fun h0 => hvs (List.length_eq_zero.mp h0)
    have htot : vs.map (fun v => priceOrZero v + shippingOrZero v) ≠ [] := by
      simp [List.map_eq_nil_iff, hvs]
    have hval : getPriceRange (some vs) =
        ⟨jsMin (vs.map (fun v => priceOrZero v + shippingOrZero v)),
         jsMax (vs.map (fun v => priceOrZero v + shippingOrZero v))⟩ := by
      simp only [getPriceRange, if_neg hlen, List.length_map, if_neg hlen]
    rw [hval]
    obtain ⟨hmem, hle⟩ := jsMin_spec _ htot
    obtain ⟨hmem2, hle2⟩ := jsMax_spec _ htot
    exact ⟨hmem, hmem2, fun t ht => ⟨hle t ht, hle2 t ht⟩⟩

def wVariantBare : Variant := ⟨"v1", "bare", none, none, 0, true⟩

/-- Witness for C10: a single variant with both price and shipping missing
yields the total 0 and range `{0, 0}` rather than failing. -/
theorem C10_getPriceRange_robust_witness :
    ([wVariantBare] : List Variant) ≠ [] ∧
    ((getPriceRange (some [wVariantBare])).min ∈
        [wVariantBare].map (fun v => priceOrZero v + shippingOrZero v) ∧
     (getPriceRange (some [wVariantBare])).max ∈
        [wVariantBare].map (fun v => priceOrZero v + shippingOrZero v) ∧
     ∀ t ∈ [wVariantBare].map (fun v => priceOrZero v + shippingOrZero v),
        (getPriceRange (some [wVariantBare])).min ≤ t ∧
          t ≤ (getPriceRange (some [wVariantBare])).max) :=
  ⟨by simp,
   C10_getPriceRange_robust.2.2.2.2 [wVariantBare] (by simp)⟩

/-! ## Claim C1 — findBestMatchingVariant -/

/-- The first element of a scored list attaining the maximal score. -/
def firstMax : List (Variant × ℚ) → Option (Variant × ℚ)
  | [] => none
  | p :: t =>
      match firstMax t with
      | none => some p
      | some q => if q.2 > p.2 then some q else some p

theorem firstMax_eq_none_iff (l : List (Variant × ℚ)) :
    firstMax l = none ↔ l = [] := by
  cases l with
  | nil => simp [firstMax]
  | cons p t =>
      simp only [firstMax]
      cases firstMax t with
      | none => simp
      | some q =>
          by_cases h : q.2 > p.2 <;> simp [h]

theorem insertDesc_head (p : Variant × ℚ) (s : List (Variant × ℚ)) :
    (insertDesc p s).head? =
      some (match s with
            | [] => p
            | q :: _ => if q.2 > p.2 then q else p) := by
  cases s with
  | nil => rfl
  | cons q t =>
      by_cases h : q.2 > p.2 <;> simp [insertDesc, h]

theorem sortByScoreDesc_head (l : List (Variant × ℚ)) :
    (sortByScoreDesc l).head? = firstMax l := by
  induction l with
  | nil => rfl
  | cons p t ih =>
      rw [show sortByScoreDesc (p :: t) = insertDesc p (sortByScoreDesc t) from rfl,
        insertDesc_head]
      cases hs : sortByScoreDesc t with
      | nil =>
          rw [hs] at ih
          simp only [List.head?_nil] at ih
          simp [firstMax, ← ih]
      | cons q t2 =>
          rw [hs] at ih
          simp only [List.head?_cons] at ih
          simp only [firstMax, ← ih]
          split <;> rfl

theorem firstMax_split (l : List (Variant × ℚ)) (m : Variant × ℚ)
    (h : firstMax l = some m) :
    ∃ l1 l2, l = l1 ++ m :: l2 ∧ (∀ x ∈ l1, x.2 < m.2) ∧
      ∀ x ∈ l, x.2 ≤ m.2 := by
  induction l generalizing m with
  | nil => simp [firstMax] at h
  | cons p t ih =>
      cases ht : firstMax t with
      | none =>
          have hte : t = [] := (firstMax_eq_none_iff t).mp ht
          subst hte
          simp only [firstMax] at h
          cases h
          exact ⟨[], [], rfl, by simp, by simp⟩
      | some q =>
          simp only [firstMax, ht] at h
          by_cases hq : q.2 > p.2
          · rw [if_pos hq] at h
            cases h
            obtain ⟨l1, l2, hsplit, hpre, hall⟩ := ih m ht
            refine ⟨p :: l1, l2, by simp [hsplit], ?_, ?_⟩
            · intro x hx
              rcases List.mem_cons.mp hx with rfl | hx
              · exact hq
              · exact hpre x hx
            · intro x hx
              rcases List.mem_cons.mp hx with rfl | hx
              · exact le_of_lt hq
              · exact hall x hx
          · rw [if_neg hq] at h
            cases h
            obtain ⟨l1, l2, hsplit, hpre, hall⟩ := ih q ht
            refine ⟨[], t, rfl, by simp, ?_⟩
            intro x hx
            rcases List.mem_cons.mp hx with rfl | hx
            · exact le_refl x.2
            · exact le_trans (hall x hx) (not_lt.mp hq)

/-- Claim C1 (confirmed): for a non-null context and non-empty variant list,
every variant is scored with
`(1 / (|discountedValue − median| + 1)) × (1.5 if lowerBound ≤ value ≤
upperBound else 0.5) × (1.3 if isMainProduct else 0.7)` and the returned
variant is the first one attaining the maximal score (stable descending
sort, first element); with a null context or an empty list the first
variant (`variants[0]`, i.e. `none` for an empty list) is returned
unchanged. -/
theorem C1_findBestMatchingVariant_spec (variants : List Variant)
    (ctx : PageContext) (hp : ∀ v ∈ variants, v.price.isSome) :
    (findBestMatchingVariant variants none = variants.head?) ∧
    (findBestMatchingVariant [] (some ctx) = none) ∧
    (∀ v, calculateVariantScore v ctx =
        (1 / (|variantDiscounted v - ctx.median| + 1)) *
          (if ctx.lowerBound ≤ variantDiscounted v ∧
              variantDiscounted v ≤ ctx.upperBound then (3 / 2 : ℚ) else 1 / 2) *
          (if v.isMainProduct then (13 / 10 : ℚ) else 7 / 10)) ∧
    (variants ≠ [] →
        ∃ best, findBestMatchingVariant variants (some ctx) = some best ∧
          best ∈ variants ∧
          (∀ v ∈ variants,
              calculateVariantScore v ctx ≤ calculateVariantScore best ctx) ∧
          ∃ pre post, variants = pre ++ best :: post ∧
            ∀ v ∈ pre,
              calculateVariantScore v ctx < calculateVariantScore best ctx) := by
  refine ⟨rfl, rfl, fun v => rfl, ?_⟩
  intro hne
  set f : Variant → Variant × ℚ := fun v => (v, calculateVariantScore v ctx) with hf
  have hlen : variants.length ≠ 0 := fun h0 => hne (List.length_eq_zero.mp h0)
  have hscored : variants.map f ≠ [] := by
    simp [List.map_eq_nil_iff, hne]
  obtain ⟨m, hm⟩ : ∃ m, firstMax (variants.map f) = some m := by
    cases hfm : firstMax (variants.map f) with
    | none => exact absurd ((firstMax_eq_none_iff _).mp hfm) hscored
    | some m => exact ⟨m, rfl⟩
  have hbest : findBestMatchingVariant variants (some ctx) = some m.1 := by
    simp only [findBestMatchingVariant, if_neg hlen, sortByScoreDesc_head, ← hf, hm]
    rfl
  obtain ⟨l1, l2, hsplit, hpre, hall⟩ := firstMax_split _ _ hm
  obtain ⟨p1, rest, hp1, hfm1, hrest⟩ := List.map_eq_append_iff.mp hsplit
  obtain ⟨v0, p2, hv0, hfv0, hfp2⟩ := List.map_eq_cons_iff.mp hrest
  have hm1 : m.1 = v0 := by rw [← hfv0]
  have hm2 : m.2 = calculateVariantScore v0 ctx := by rw [← hfv0]
  refine ⟨m.1, hbest, ?_, ?_, ?_⟩
  · rw [hm1, hp1, hv0]
    exact List.mem_append_right _ (List.mem_cons_self _ _)
  · intro v hv
    have : f v ∈ variants.map f := List.mem_map_of_mem f hv
    have hle := hall (f v) this
    rw [hm2] at hle
    rw [hm1]
    exact hle
  · refine ⟨p1, p2, by rw [hp1, hv0, hm1], ?_⟩
    intro v hv
    have : f v ∈ l1 := by rw [← hfm1]; exact List.mem_map_of_mem f hv
    have hlt := hpre (f v) this
    rw [hm2] at hlt
    rw [hm1]
    exact hlt

def wCtx : PageContext := ⟨44, 154 / 5, 286 / 5, ⟨0, 0, []⟩⟩

def wVariantA : Variant := ⟨"A", "case", some ⟨5, 5, ""⟩, none, 1, false⟩

def wVariantB : Variant := ⟨"B", "bike", some ⟨45, 45, ""⟩, none, 1, true⟩

/-- Witness for C1: the specification's worked example — median 44, band
±13.2, a cheap accessory variant at 5 and a main variant at 45. -/
theorem C1_findBestMatchingVariant_spec_witness :
    (∀ v ∈ [wVariantA, wVariantB], v.price.isSome) ∧
    ([wVariantA, wVariantB] ≠ []) ∧
    (∃ best,
        findBestMatchingVariant [wVariantA, wVariantB] (some wCtx) = some best ∧
        best ∈ [wVariantA, wVariantB] ∧
        (∀ v ∈ [wVariantA, wVariantB],
            calculateVariantScore v wCtx ≤ calculateVariantScore best wCtx) ∧
        ∃ pre post, [wVariantA, wVariantB] = pre ++ best :: post ∧
          ∀ v ∈ pre,
            calculateVariantScore v wCtx < calculateVariantScore best wCtx) :=
  ⟨by decide, by decide,
   (C1_findBestMatchingVariant_spec [wVariantA, wVariantB] wCtx
       (by decide)).2.2.2 (by decide)⟩

/-! ## Claim C7 — calculatePageContext -/

/-- The claim-side bucket predicate: price `p` falls in the `i`-th of the 5
equal-width half-open buckets based at `mn` with width `step`. -/
def inBucket (mn step p : ℚ) (i : ℕ) : Prop :=
  mn + step * i ≤ p ∧ p < mn + step * (i + 1)

/-- The claim-side bucket contents of the extracted prices (the filter
condition is precisely `inBucket mn step · i`). -/
def specBucket (prices : List ℚ) (mn step : ℚ) (i : ℕ) : List ℚ :=
  prices.filter (fun p => mn + step * (i : ℚ) ≤ p ∧ p < mn + step * ((i : ℚ) + 1))

theorem mem_specBucket (prices : List ℚ) (mn step : ℚ) (i : ℕ) (p : ℚ) :
    p ∈ specBucket prices mn step i ↔ p ∈ prices ∧ inBucket mn step p i := by
  simp [specBucket, inBucket]

/-- The claim-side population variance (mean squared deviation); the
population standard deviation of the claim is its square root. -/
def specVariance (l : List ℚ) : ℚ :=
  (l.map (fun x => (x - l.sum / (l.length : ℚ)) ^ 2)).sum / (l.length : ℚ)

theorem specVariance_perm (l1 l2 : List ℚ) (h : l1.Perm l2) :
    specVariance l1 = specVariance l2 := by
  unfold specVariance
  simp only [h.sum_eq, h.length_eq]
  rw [(h.map (fun x => (x - l2.sum / (l2.length : ℚ)) ^ 2)).sum_eq]

theorem calculateVariance_eq_specVariance (l : List ℚ) :
    calculateVariance l = specVariance l := rfl

theorem sorted_headD_spec (l : List ℚ) (hs : l.Sorted (· ≤ ·)) (hl : l ≠ []) :
    l.headD 0 ∈ l ∧ ∀ x ∈ l, l.headD 0 ≤ x := by
  match l, hl with
  | h :: t, _ =>
      refine ⟨by simp, ?_⟩
      intro x hx
      rcases List.mem_cons.mp hx with rfl | hx
      · simp
      · simpa using List.rel_of_sorted_cons hs x hx

theorem sorted_getLastD_spec (l : List ℚ) (hs : l.Sorted (· ≤ ·)) (hl : l ≠ []) :
    l.getLastD 0 ∈ l ∧ ∀ x ∈ l, x ≤ l.getLastD 0 := by
  induction l with
  | nil => exact absurd rfl hl
  | cons h t ih =>
      cases t with
      | nil => simp
      | cons c t2 =>
          have hs2 : (c :: t2).Sorted (· ≤ ·) := hs.of_cons
          obtain ⟨hmem, hle⟩ := ih hs2 (by simp)
          have hlast : (h :: c :: t2).getLastD 0 = (c :: t2).getLastD 0 := by
            simp [List.getLastD_eq_getLast?, List.getLast?_cons_cons]
          refine ⟨by rw [hlast]; exact List.mem_cons_of_mem h hmem, ?_⟩
          intro x hx
          rcases List.mem_cons.mp hx with rfl | hx
          · rw [hlast]
            exact le_trans (List.rel_of_sorted_cons hs _ hmem) (le_refl _)
          · rw [hlast]
            exact hle x hx

theorem jsMin_eq_headD (l : List ℚ) (hs : l.Sorted (· ≤ ·)) (hl : l ≠ []) :
    jsMin l = l.headD 0 := by
  obtain ⟨hm1, hb1⟩ := jsMin_spec l hl
  obtain ⟨hm2, hb2⟩ := sorted_headD_spec l hs hl
  exact le_antisymm (hb1 _ hm2) (hb2 _ hm1)

theorem jsMax_eq_getLastD (l : List ℚ) (hs : l.Sorted (· ≤ ·)) (hl : l ≠ []) :
    jsMax l = l.getLastD 0 := by
  obtain ⟨hm1, hb1⟩ := jsMax_spec l hl
  obtain ⟨hm2, hb2⟩ := sorted_getLastD_spec l hs hl
  exact le_antisymm (hb2 _ hm1) (hb1 _ hm2)

theorem sortAsc_perm (l : List ℚ) : (sortAsc l).Perm l :=
  List.perm_insertionSort (· ≤ ·) l

theorem sortAsc_sorted (l : List ℚ) : (sortAsc l).Sorted (· ≤ ·) :=
  List.sorted_insertionSort (· ≤ ·) l

theorem bucket_partition (mn mx p : ℚ) (hlt : mn < mx) (hp1 : mn ≤ p)
    (hp2 : p < mx) :
    ∃! i : ℕ, i < 5 ∧ inBucket mn ((mx - mn) / 5) p i := by
  set step := (mx - mn) / 5 with hstep
  have hs0 : 0 < step := by rw [hstep]; exact div_pos (by linarith) (by norm_num)
  set q := (p - mn) / step with hq
  have hq0 : 0 ≤ q := div_nonneg (by linarith) hs0.le
  have h5step : (5 : ℚ) * step = mx - mn := by rw [hstep]; ring
  have hq5 : q < 5 := by
    rw [hq, div_lt_iff hs0]
    linarith
  have hiff : ∀ i : ℕ, inBucket mn step p i ↔ ((i : ℚ) ≤ q ∧ q < (i : ℚ) + 1) := by
    intro i
    unfold inBucket
    rw [hq, le_div_iff hs0, div_lt_iff hs0]
    push_cast
    constructor
    · rintro ⟨h1, h2⟩
      exact ⟨by nlinarith, by nlinarith⟩
    · rintro ⟨h1, h2⟩
      exact ⟨by nlinarith, by nlinarith⟩
  refine ⟨⌊q⌋₊, ⟨(Nat.floor_lt hq0).mpr hq5, ?_⟩, ?_⟩
  · rw [hiff]
    exact ⟨Nat.floor_le hq0, Nat.lt_floor_add_one q⟩
  · rintro i ⟨hi5, hbk⟩
    rw [hiff] at hbk
    exact ((Nat.floor_eq_iff hq0).mpr ⟨hbk.1, hbk.2⟩).symm

theorem bucket_max_excluded (mn mx : ℚ) (hlt : mn < mx) (i : ℕ) (hi : i < 5) :
    ¬ inBucket mn ((mx - mn) / 5) mx i := by
  rintro ⟨h1, h2⟩
  have hs0 : 0 < (mx - mn) / 5 := div_pos (by linarith) (by norm_num)
  have hc : ((i : ℚ) + 1) ≤ 5 := by exact_mod_cast hi
  have h3 : (mx - mn) / 5 * ((i : ℚ) + 1) ≤ (mx - mn) / 5 * 5 := by nlinarith
  have h4 : mn + (mx - mn) / 5 * 5 = mx := by ring
  linarith

theorem findPriceClusters_eq (l : List ℚ) :
    findPriceClusters l = (List.range 5).filterMap (fun i =>
      if (specBucket l (l.headD 0) ((l.getLastD 0 - l.headD 0) / 5) i).length > 0 then
        some ⟨l.headD 0 + (l.getLastD 0 - l.headD 0) / 5 * i +
                ((l.getLastD 0 - l.headD 0) / 5) / 2,
              (specBucket l (l.headD 0) ((l.getLastD 0 - l.headD 0) / 5) i).length,
              specVariance (specBucket l (l.headD 0) ((l.getLastD 0 - l.headD 0) / 5) i)⟩
      else none) := by
  simp only [findPriceClusters, specBucket]
  refine congrArg (List.filterMap · (List.range 5)) (funext fun i => ?_)
  by_cases hlen : (l.filter (fun p =>
      decide (l.headD 0 + (l.getLastD 0 - l.headD 0) / 5 * (i : ℚ) ≤ p ∧
        p < l.headD 0 + (l.getLastD 0 - l.headD 0) / 5 * ((i : ℚ) + 1)))).length > 0
  · rw [if_pos hlen, if_pos hlen]
    refine congrArg some ?_
    refine congrArg (fun c => Cluster.mk c _ _) ?_
    ring
  · rw [if_neg hlen, if_neg hlen]

/-- Claim C7 (amended): `calculatePageContext` returns `null` for an empty
price list; otherwise it sorts ascending and returns the standard median
(`median([10,20,30]) = 20`, `median([10,20,30,40]) = 25`), the band
`median ± 0.3·median`, the attained minimum and maximum, and a histogram of
**up to** 5 equal-width half-open buckets `[min + i·step, min + (i+1)·step)`
with `step = (max−min)/5` (empty buckets are omitted), each carrying its
price count and the population variance (whose square root is the reported
population standard deviation).  Every price strictly below the maximum is
counted in exactly one bucket, but the maximum itself falls in **no**
bucket (the last bucket is half-open below it); in particular when all
prices are equal the histogram is empty. -/
theorem C7_calculatePageContext_stats :
    (calculatePageContext [] = none) ∧
    calculateMedian (sortAsc [10, 20, 30]) = 20 ∧
    calculateMedian (sortAsc [10, 20, 30, 40]) = 25 ∧
    ∀ prices : List ℚ, prices ≠ [] →
      ∃ ctx, calculatePageContext prices = some ctx ∧
        ctx.median = calculateMedian (sortAsc prices) ∧
        ctx.lowerBound = ctx.median - 3 / 10 * ctx.median ∧
        ctx.upperBound = ctx.median + 3 / 10 * ctx.median ∧
        (ctx.distribution.min ∈ prices ∧ ∀ p ∈ prices, ctx.distribution.min ≤ p) ∧
        (ctx.distribution.max ∈ prices ∧ ∀ p ∈ prices, p ≤ ctx.distribution.max) ∧
        (∀ c ∈ ctx.distribution.clusters,
            ∃ i, i < 5 ∧
              c.count = (specBucket prices ctx.distribution.min
                  ((ctx.distribution.max - ctx.distribution.min) / 5) i).length ∧
              c.count ≠ 0 ∧
              c.centerPrice = ctx.distribution.min +
                  (ctx.distribution.max - ctx.distribution.min) / 5 * i +
                  ((ctx.distribution.max - ctx.distribution.min) / 5) / 2 ∧
              Real.sqrt (c.variance : ℝ) =
                Real.sqrt ((specVariance (specBucket prices ctx.distribution.min
                    ((ctx.distribution.max - ctx.distribution.min) / 5) i) : ℚ) : ℝ)) ∧
        (∀ i, i < 5 →
            specBucket prices ctx.distribution.min
                ((ctx.distribution.max - ctx.distribution.min) / 5) i ≠ [] →
            ∃ c ∈ ctx.distribution.clusters,
              c.count = (specBucket prices ctx.distribution.min
                  ((ctx.distribution.max - ctx.distribution.min) / 5) i).length) ∧
        (ctx.distribution.min < ctx.distribution.max →
            (∀ p ∈ prices, p < ctx.distribution.max →
              ∃! i : ℕ, i < 5 ∧ inBucket ctx.distribution.min
                  ((ctx.distribution.max - ctx.distribution.min) / 5) p i) ∧
            ∀ i, i < 5 → ¬ inBucket ctx.distribution.min
                ((ctx.distribution.max - ctx.distribution.min) / 5)
                ctx.distribution.max i) ∧
        (ctx.distribution.min = ctx.distribution.max →
            ctx.distribution.clusters = []) := by
  refine ⟨rfl, ?_, ?_, ?_⟩
  · norm_num [sortAsc, List.insertionSort, List.orderedInsert, calculateMedian,
      List.getD]
  · norm_num [sortAsc, List.insertionSort, List.orderedInsert, calculateMedian,
      List.getD]
  intro prices hne
  have hlen0 : prices.length ≠ 0 := fun h0 => hne (List.length_eq_zero.mp h0)
  have hperm : (sortAsc prices).Perm prices := sortAsc_perm prices
  have hsortd : (sortAsc prices).Sorted (· ≤ ·) := sortAsc_sorted prices
  have hsne : sortAsc prices ≠ [] := by
    intro h0
    apply hne
    apply List.length_eq_zero.mp
    rw [← hperm.length_eq, h0]
    rfl
  have hmin := jsMin_eq_headD _ hsortd hsne
  have hmax := jsMax_eq_getLastD _ hsortd hsne
  obtain ⟨hminmem, hminle⟩ := jsMin_spec (sortAsc prices) hsne
  obtain ⟨hmaxmem, hmaxle⟩ := jsMax_spec (sortAsc prices) hsne
  have hctx : calculatePageContext prices =
      some ⟨calculateMedian (sortAsc prices),
            calculateMedian (sortAsc prices) -
              calculateMedian (sortAsc prices) * (3 / 10),
            calculateMedian (sortAsc prices) +
              calculateMedian (sortAsc prices) * (3 / 10),
            ⟨jsMin (sortAsc prices), jsMax (sortAsc prices),
             findPriceClusters (sortAsc prices)⟩⟩ := by
    simp only [calculatePageContext, if_neg hlen0, calculateDistribution]
  -- cluster description with the min/max base
  have hcl : findPriceClusters (sortAsc prices) =
      (List.range 5).filterMap (fun i =>
        if (specBucket (sortAsc prices) (jsMin (sortAsc prices))
              ((jsMax (sortAsc prices) - jsMin (sortAsc prices)) / 5) i).length > 0
        then
          some ⟨jsMin (sortAsc prices) +
                  (jsMax (sortAsc prices) - jsMin (sortAsc prices)) / 5 * i +
                  ((jsMax (sortAsc prices) - jsMin (sortAsc prices)) / 5) / 2,
                (specBucket (sortAsc prices) (jsMin (sortAsc prices))
                  ((jsMax (sortAsc prices) - jsMin (sortAsc prices)) / 5) i).length,
                specVariance (specBucket (sortAsc prices) (jsMin (sortAsc prices))
                  ((jsMax (sortAsc prices) - jsMin (sortAsc prices)) / 5) i)⟩
        else none) := by
    rw [findPriceClusters_eq, hmin, hmax]
  have hbucket_perm : ∀ i : ℕ,
      (specBucket (sortAsc prices) (jsMin (sortAsc prices))
        ((jsMax (sortAsc prices) - jsMin (sortAsc prices)) / 5) i).Perm
      (specBucket prices (jsMin (sortAsc prices))
        ((jsMax (sortAsc prices) - jsMin (sortAsc prices)) / 5) i) := by
    intro i
    exact hperm.filter _
  refine ⟨_, hctx, rfl, by ring, by ring, ?_, ?_, ?_, ?_, ?_, ?_⟩
  · exact ⟨hperm.mem_iff.mp hminmem, fun p hp2 => hminle p (hperm.mem_iff.mpr hp2)⟩
  · exact ⟨hperm.mem_iff.mp hmaxmem, fun p hp2 => hmaxle p (hperm.mem_iff.mpr hp2)⟩
  · -- each emitted cluster
    intro c hc
    simp only at hc
    rw [hcl] at hc
    rw [List.mem_filterMap] at hc
    obtain ⟨i, hir, hgi⟩ := hc
    by_cases hpos : (specBucket (sortAsc prices) (jsMin (sortAsc prices))
        ((jsMax (sortAsc prices) - jsMin (sortAsc prices)) / 5) i).length > 0
    · rw [if_pos hpos] at hgi
      cases hgi
      refine ⟨i, List.mem_range.mp hir, ?_, ?_, rfl, ?_⟩
      · exact (hbucket_perm i).length_eq
      · exact Nat.pos_iff_ne_zero.mp hpos
      · have hv : specVariance (specBucket (sortAsc prices) (jsMin (sortAsc prices))
            ((jsMax (sortAsc prices) - jsMin (sortAsc prices)) / 5) i) =
            specVariance (specBucket prices (jsMin (sortAsc prices))
              ((jsMax (sortAsc prices) - jsMin (sortAsc prices)) / 5) i) :=
          specVariance_perm _ _ (hbucket_perm i)
        rw [hv]
    · rw [if_neg hpos] at hgi
      cases hgi
  · -- each non-empty bucket is emitted
    intro i hi5 hbne
    have hpos : (specBucket (sortAsc prices) (jsMin (sortAsc prices))
        ((jsMax (sortAsc prices) - jsMin (sortAsc prices)) / 5) i).length > 0 := by
      rw [(hbucket_perm i).length_eq]
      exact List.length_pos.mpr hbne
    refine ⟨⟨jsMin (sortAsc prices) +
        (jsMax (sortAsc prices) - jsMin (sortAsc prices)) / 5 * (i : ℚ) +
        (jsMax (sortAsc prices) - jsMin (sortAsc prices)) / 5 / 2,
      (specBucket (sortAsc prices) (jsMin (sortAsc prices))
        ((jsMax (sortAsc prices) - jsMin (sortAsc prices)) / 5) i).length,
      specVariance (specBucket (sortAsc prices) (jsMin (sortAsc prices))
        ((jsMax (sortAsc prices) - jsMin (sortAsc prices)) / 5) i)⟩, ?_, ?_⟩
    · show _ ∈ findPriceClusters (sortAsc prices)
      rw [hcl, List.mem_filterMap]
      exact ⟨i, List.mem_range.mpr hi5, if_pos hpos⟩
    · exact (hbucket_perm i).length_eq
  · -- partition of [min, max) and exclusion of the maximum
    intro hlt
    constructor
    · intro p hpmem hplt
      exact bucket_partition _ _ p hlt (hminle p (hperm.mem_iff.mpr hpmem)) hplt
    · intro i hi5
      exact bucket_max_excluded _ _ hlt i hi5
  · -- all prices equal: the histogram is empty
    intro heq
    have heq2 : jsMin (sortAsc prices) = jsMax (sortAsc prices) := heq
    show findPriceClusters (sortAsc prices) = []
    rw [hcl, List.filterMap_eq_nil]
    intro i hir
    have hstep0 : (jsMax (sortAsc prices) - jsMin (sortAsc prices)) / 5 = 0 := by
      rw [heq2]; ring
    have hbe : specBucket (sortAsc prices) (jsMin (sortAsc prices))
        ((jsMax (sortAsc prices) - jsMin (sortAsc prices)) / 5) i = [] := by
      unfold specBucket
      rw [hstep0, List.filter_eq_nil]
      intro p hp
      simp only [decide_eq_true_eq, not_and, not_lt]
      intro h1
      simpa using h1
    rw [hbe]
    simp

/-- Witness for C7: the non-empty-list branch discharged at `[10, 20, 30]`. -/
theorem C7_calculatePageContext_stats_witness :
    ([10, 20, 30] : List ℚ) ≠ [] ∧
    ∃ ctx, calculatePageContext [10, 20, 30] = some ctx ∧
      ctx.median = calculateMedian (sortAsc [10, 20, 30]) :=
  ⟨by simp, by
    obtain ⟨ctx, h1, h2, _⟩ :=
      C7_calculatePageContext_stats.2.2.2 [10, 20, 30] (by simp)
    exact ⟨ctx, h1, h2⟩⟩

/-- Counterexample for C7 as stated: for the extracted prices `[10, 20]`
the histogram counts only one of the two prices — the maximum (20) falls in
no bucket, because every bucket is half-open and the last one is
`[18, 20)`. -/
theorem C7_calculatePageContext_counterexample :
    (calculatePageContext [10, 20]).map
        (fun ctx => (ctx.distribution.clusters.map (fun c => c.count)).sum) =
      some 1 ∧
    ([10, 20] : List ℚ).length = 2 ∧ (1 : ℕ) ≠ 2 := by
  refine ⟨?_, rfl, by decide⟩
  norm_num [calculatePageContext, sortAsc, List.insertionSort, List.orderedInsert,
    calculateMedian, calculateDistribution, findPriceClusters, jsMin, jsMax,
    List.range_succ, List.filterMap, List.filter, calculateVariance]

/-! ## Claim C9 — the embedded MD5 against the reference algorithm

The JavaScript `md5` (part_000 lines 569-755) works on "binary strings":
before hashing, any string with code units ≥ 0x80 is re-encoded so that
every `charCodeAt` is a byte (line 749-753).  The model therefore takes the
input as a list of byte values.  JavaScript 32-bit coercions are modelled
over `ℕ` with explicit `% 4294967296`; a signed int32 is represented by its
unsigned bit pattern, and the source's signed decimal constants enter
through `js32`.

The reference development (`refPad`, `refBlocks`, `refRounds`, `refMd5`,
`refDigest`) is modelled from the spec: "a standard 128-bit message-digest
algorithm" — MD5 as defined by RFC 1321 (pad with `0x80`, zeros and the
64-bit little-endian bit length; 4 rounds of 16 operations
`a := b + ((a + Fn(b,c,d) + X[k] + T[i]) <<< s)` with the schedule and the
sine-derived table `T`; little-endian lowercase hex digest). -/

/-- `add32` (lines 743-745): addition truncated to the low 32 bits. -/
def add32 (a b : ℕ) : ℕ := (a + b) % 4294967296

/-- JavaScript `~` on an int32 bit pattern below `2^32`. -/
def not32 (a : ℕ) : ℕ := a ^^^ 4294967295

/-- `(a << s) | (a >>> (32 - s))` (line 572): rotate a 32-bit pattern left. -/
def rotl32 (a s : ℕ) : ℕ := ((a <<< s) % 4294967296) ||| (a >>> (32 - s))

/-- The unsigned bit pattern of a JavaScript signed 32-bit constant. -/
def js32 (z : ℤ) : ℕ := (z % 4294967296).toNat

/-- `cmn` (lines 570-573). -/
def cmn (q a b x s t : ℕ) : ℕ :=
  add32 (rotl32 (add32 (add32 a q) (add32 x t)) s) b

/-- `ff` (lines 575-577). -/
def ff (a b c d x s t : ℕ) : ℕ := cmn ((b &&& c) ||| (not32 b &&& d)) a b x s t

/-- `gg` (lines 579-581). -/
def gg (a b c d x s t : ℕ) : ℕ := cmn ((b &&& d) ||| (c &&& not32 d)) a b x s t

/-- `hh` (lines 583-585). -/
def hh (a b c d x s t : ℕ) : ℕ := cmn (b ^^^ c ^^^ d) a b x s t

/-- `ii` (lines 587-589). -/
def ii (a b c d x s t : ℕ) : ℕ := cmn (c ^^^ (b ||| not32 d)) a b x s t

/-- The four chaining words `[a, b, c, d]` of the MD5 state. -/
structure MDState where
  a : ℕ
  b : ℕ
  c : ℕ
  d : ℕ
deriving DecidableEq, Repr

/-- Which of the four step functions a cycle line uses. -/
inductive MDRound where
  | F | G | H | I
deriving DecidableEq, Repr

/-- Which state word a cycle line assigns (`a = …`, `d = …`, `c = …`,
`b = …`). -/
inductive Slot where
  | SA | SD | SC | SB
deriving DecidableEq, Repr

/-- One line of `md5cycle`: function, assigned word, block index `k`,
rotation `s`, additive constant `t`. -/
structure MDStep where
  round : MDRound
  slot : Slot
  k : ℕ
  s : ℕ
  t : ℕ
deriving DecidableEq, Repr

/-- Dispatch of `ff`/`gg`/`hh`/`ii`. -/
def jsOp : MDRound → ℕ → ℕ → ℕ → ℕ → ℕ → ℕ → ℕ → ℕ
  | .F => ff
  | .G => gg
  | .H => hh
  | .I => ii

/-- Execute one line of `md5cycle`, rotating the arguments according to the
assigned word exactly as the source lines do (`a = ff(a, b, c, d, …)`,
`d = ff(d, a, b, c, …)`, `c = ff(c, d, a, b, …)`, `b = ff(b, c, d, a, …)`). -/
def jsApplyStep (k : ℕ → ℕ) (st : MDState) (step : MDStep) : MDState :=
  match step.slot with
  | .SA => { st with a := jsOp step.round st.a st.b st.c st.d (k step.k) step.s step.t }
  | .SD => { st with d := jsOp step.round st.d st.a st.b st.c (k step.k) step.s step.t }
  | .SC => { st with c := jsOp step.round st.c st.d st.a st.b (k step.k) step.s step.t }
  | .SB => { st with b := jsOp step.round st.b st.c st.d st.a (k step.k) step.s step.t }

/-- The 64 lines of `md5cycle` (lines 594-660), one table entry per source
line, with the source's signed decimal constants. -/
def jsRounds : List MDStep :=
  [   ⟨.F, .SA, 0, 7, js32 (-680876936)⟩,
   ⟨.F, .SD, 1, 12, js32 (-389564586)⟩,
   ⟨.F, .SC, 2, 17, js32 (606105819)⟩,
   ⟨.F, .SB, 3, 22, js32 (-1044525330)⟩,
   ⟨.F, .SA, 4, 7, js32 (-176418897)⟩,
   ⟨.F, .SD, 5, 12, js32 (1200080426)⟩,
   ⟨.F, .SC, 6, 17, js32 (-1473231341)⟩,
   ⟨.F, .SB, 7, 22, js32 (-45705983)⟩,
   ⟨.F, .SA, 8, 7, js32 (1770035416)⟩,
   ⟨.F, .SD, 9, 12, js32 (-1958414417)⟩,
   ⟨.F, .SC, 10, 17, js32 (-42063)⟩,
   ⟨.F, .SB, 11, 22, js32 (-1990404162)⟩,
   ⟨.F, .SA, 12, 7, js32 (1804603682)⟩,
   ⟨.F, .SD, 13, 12, js32 (-40341101)⟩,
   ⟨.F, .SC, 14, 17, js32 (-1502002290)⟩,
   ⟨.F, .SB, 15, 22, js32 (1236535329)⟩,
   ⟨.G, .SA, 1, 5, js32 (-165796510)⟩,
   ⟨.G, .SD, 6, 9, js32 (-1069501632)⟩,
   ⟨.G, .SC, 11, 14, js32 (643717713)⟩,
   ⟨.G, .SB, 0, 20, js32 (-373897302)⟩,
   ⟨.G, .SA, 5, 5, js32 (-701558691)⟩,
   ⟨.G, .SD, 10, 9, js32 (38016083)⟩,
   ⟨.G, .SC, 15, 14, js32 (-660478335)⟩,
   ⟨.G, .SB, 4, 20, js32 (-405537848)⟩,
   ⟨.G, .SA, 9, 5, js32 (568446438)⟩,
   ⟨.G, .SD, 14, 9, js32 (-1019803690)⟩,
   ⟨.G, .SC, 3, 14, js32 (-187363961)⟩,
   ⟨.G, .SB, 8, 20, js32 (1163531501)⟩,
   ⟨.G, .SA, 13, 5, js32 (-1444681467)⟩,
   ⟨.G, .SD, 2, 9, js32 (-51403784)⟩,
   ⟨.G, .SC, 7, 14, js32 (1735328473)⟩,
   ⟨.G, .SB, 12, 20, js32 (-1926607734)⟩,
   ⟨.H, .SA, 5, 4, js32 (-378558)⟩,
   ⟨.H, .SD, 8, 11, js32 (-2022574463)⟩,
   ⟨.H, .SC, 11, 16, js32 (1839030562)⟩,
   ⟨.H, .SB, 14, 23, js32 (-35309556)⟩,
   ⟨.H, .SA, 1, 4, js32 (-1530992060)⟩,
   ⟨.H, .SD, 4, 11, js32 (1272893353)⟩,
   ⟨.H, .SC, 7, 16, js32 (-155497632)⟩,
   ⟨.H, .SB, 10, 23, js32 (-1094730640)⟩,
   ⟨.H, .SA, 13, 4, js32 (681279174)⟩,
   ⟨.H, .SD, 0, 11, js32 (-358537222)⟩,
   ⟨.H, .SC, 3, 16, js32 (-722521979)⟩,
   ⟨.H, .SB, 6, 23, js32 (76029189)⟩,
   ⟨.H, .SA, 9, 4, js32 (-640364487)⟩,
   ⟨.H, .SD, 12, 11, js32 (-421815835)⟩,
   ⟨.H, .SC, 15, 16, js32 (530742520)⟩,
   ⟨.H, .SB, 2, 23, js32 (-995338651)⟩,
   ⟨.I, .SA, 0, 6, js32 (-198630844)⟩,
   ⟨.I, .SD, 7, 10, js32 (1126891415)⟩,
   ⟨.I, .SC, 14, 15, js32 (-1416354905)⟩,
   ⟨.I, .SB, 5, 21, js32 (-57434055)⟩,
   ⟨.I, .SA, 12, 6, js32 (1700485571)⟩,
   ⟨.I, .SD, 3, 10, js32 (-1894986606)⟩,
   ⟨.I, .SC, 10, 15, js32 (-1051523)⟩,
   ⟨.I, .SB, 1, 21, js32 (-2054922799)⟩,
   ⟨.I, .SA, 8, 6, js32 (1873313359)⟩,
   ⟨.I, .SD, 15, 10, js32 (-30611744)⟩,
   ⟨.I, .SC, 6, 15, js32 (-1560198380)⟩,
   ⟨.I, .SB, 13, 21, js32 (1309151649)⟩,
   ⟨.I, .SA, 4, 6, js32 (-145523070)⟩,
   ⟨.I, .SD, 11, 10, js32 (-1120210379)⟩,
   ⟨.I, .SC, 2, 15, js32 (718787259)⟩,
   ⟨.I, .SB, 9, 21, js32 (-343485551)⟩]

/-- `md5cycle` (lines 591-666): run the 64 lines, then add the result back
into the incoming state (lines 662-665). -/
def md5cycle (x : MDState) (k : ℕ → ℕ) : MDState :=
  let r := jsRounds.foldl (jsApplyStep k) x
  ⟨add32 r.a x.a, add32 r.b x.b, add32 r.c x.c, add32 r.d x.d⟩

/-- Modelled from the spec: the RFC 1321 round functions
`F(x,y,z) = (x ∧ y) ∨ (¬x ∧ z)`, `G(x,y,z) = (x ∧ z) ∨ (y ∧ ¬z)`,
`H = x ⊕ y ⊕ z`, `I = y ⊕ (x ∨ ¬z)`. -/
def refRoundFn : MDRound → ℕ → ℕ → ℕ → ℕ
  | .F, x, y, z => (x &&& y) ||| (not32 x &&& z)
  | .G, x, y, z => (x &&& z) ||| (y &&& not32 z)
  | .H, x, y, z => x ^^^ y ^^^ z
  | .I, x, y, z => y ^^^ (x ||| not32 z)

/-- Modelled from the spec: one RFC 1321 operation
`a = b + ((a + Fn(b,c,d) + X[k] + T[i]) <<< s)`, in 32-bit arithmetic. -/
def refOp (r : MDRound) (a b c d x s t : ℕ) : ℕ :=
  add32 b (rotl32 (add32 (add32 (add32 a (refRoundFn r b c d)) x) t) s)

def refApplyStep (k : ℕ → ℕ) (st : MDState) (step : MDStep) : MDState :=
  match step.slot with
  | .SA => { st with a := refOp step.round st.a st.b st.c st.d (k step.k) step.s step.t }
  | .SD => { st with d := refOp step.round st.d st.a st.b st.c (k step.k) step.s step.t }
  | .SC => { st with c := refOp step.round st.c st.d st.a st.b (k step.k) step.s step.t }
  | .SB => { st with b := refOp step.round st.b st.c st.d st.a (k step.k) step.s step.t }

/-- Modelled from the spec: RFC 1321 Appendix table
`T[i] = floor(2^32 · |sin i|)`, `i = 1 … 64`. -/
def refT : List ℕ :=
  [0xd76aa478, 0xe8c7b756, 0x242070db, 0xc1bdceee, 0xf57c0faf, 0x4787c62a, 0xa8304613, 0xfd469501,
   0x698098d8, 0x8b44f7af, 0xffff5bb1, 0x895cd7be, 0x6b901122, 0xfd987193, 0xa679438e, 0x49b40821,
   0xf61e2562, 0xc040b340, 0x265e5a51, 0xe9b6c7aa, 0xd62f105d, 0x2441453, 0xd8a1e681, 0xe7d3fbc8,
   0x21e1cde6, 0xc33707d6, 0xf4d50d87, 0x455a14ed, 0xa9e3e905, 0xfcefa3f8, 0x676f02d9, 0x8d2a4c8a,
   0xfffa3942, 0x8771f681, 0x6d9d6122, 0xfde5380c, 0xa4beea44, 0x4bdecfa9, 0xf6bb4b60, 0xbebfbc70,
   0x289b7ec6, 0xeaa127fa, 0xd4ef3085, 0x4881d05, 0xd9d4d039, 0xe6db99e5, 0x1fa27cf8, 0xc4ac5665,
   0xf4292244, 0x432aff97, 0xab9423a7, 0xfc93a039, 0x655b59c3, 0x8f0ccc92, 0xffeff47d, 0x85845dd1,
   0x6fa87e4f, 0xfe2ce6e0, 0xa3014314, 0x4e0811a1, 0xf7537e82, 0xbd3af235, 0x2ad7d2bb, 0xeb86d391]

/-- Modelled from the spec: the RFC 1321 schedule — round `r = i / 16`
chooses the function `F/G/H/I`; the cycle of assigned words is
`A, D, C, B`; the block index is `j`, `(1+5j) % 16`, `(5+3j) % 16`,
`(7j) % 16` for `j = i % 16`; the rotation comes from the per-round
quadruples. -/
def refRounds : List MDStep :=
  (List.range 64).map (fun i =>
    let r := i / 16
    let j := i % 16
    { round := if r = 0 then .F else if r = 1 then .G else if r = 2 then .H else .I
      slot := if j % 4 = 0 then .SA else if j % 4 = 1 then .SD
              else if j % 4 = 2 then .SC else .SB
      k := if r = 0 then j else if r = 1 then (1 + 5 * j) % 16
           else if r = 2 then (5 + 3 * j) % 16 else (7 * j) % 16
      s := ([[7, 12, 17, 22], [5, 9, 14, 20], [4, 11, 16, 23],
             [6, 10, 15, 21]].getD r []).getD (j % 4) 0
      t := refT.getD i 0 })

def refCycle (x : MDState) (k : ℕ → ℕ) : MDState :=
  let r := refRounds.foldl (refApplyStep k) x
  ⟨add32 r.a x.a, add32 r.b x.b, add32 r.c x.c, add32 r.d x.d⟩

/-- The source's 64 lines are exactly the RFC 1321 schedule and constant
table. -/
theorem jsRounds_eq_refRounds : jsRounds = refRounds := by decide

theorem add32_reassoc (a q x t : ℕ) :
    add32 (add32 a q) (add32 x t) = add32 (add32 (add32 a q) x) t := by
  unfold add32; omega

theorem add32_comm (a b : ℕ) : add32 a b = add32 b a := by
  unfold add32; omega

theorem cmn_eq_refShape (q a b x s t : ℕ) :
    cmn q a b x s t = add32 b (rotl32 (add32 (add32 (add32 a q) x) t) s) := by
  unfold cmn
  rw [add32_reassoc, add32_comm]

theorem jsOp_eq_refOp (r : MDRound) (a b c d x s t : ℕ) :
    jsOp r a b c d x s t = refOp r a b c d x s t := by
  cases r <;>
    simp only [jsOp, ff, gg, hh, ii, cmn_eq_refShape, refOp, refRoundFn]

theorem jsApplyStep_eq_refApplyStep (k : ℕ → ℕ) (st : MDState) (step : MDStep) :
    jsApplyStep k st step = refApplyStep k st step := by
  cases hs : step.slot <;>
    simp only [jsApplyStep, refApplyStep, hs, jsOp_eq_refOp]

theorem foldl_jsApplyStep_eq (k : ℕ → ℕ) (l : List MDStep) (st : MDState) :
    l.foldl (jsApplyStep k) st = l.foldl (refApplyStep k) st := by
  induction l generalizing st with
  | nil => rfl
  | cons s t ih => rw [List.foldl_cons, List.foldl_cons,
      jsApplyStep_eq_refApplyStep, ih]

/-- The source cycle is the RFC cycle. -/
theorem md5cycle_eq_refCycle (x : MDState) (k : ℕ → ℕ) :
    md5cycle x k = refCycle x k := by
  unfold md5cycle refCycle
  rw [jsRounds_eq_refRounds, foldl_jsApplyStep_eq]

/-- Block words enter every step only through `add32 x t`, so a cycle only
sees them modulo `2^32`. -/
theorem md5cycle_congr_k (x : MDState) (k k2 : ℕ → ℕ)
    (h : ∀ i, k i % 4294967296 = k2 i % 4294967296) :
    md5cycle x k = md5cycle x k2 := by
  unfold md5cycle
  have hstep : ∀ st step, jsApplyStep k st step = jsApplyStep k2 st step := by
    intro st step
    have hop : ∀ r a b c d s t, jsOp r a b c d (k step.k) s t =
        jsOp r a b c d (k2 step.k) s t := by
      intro r a b c d s t
      have hx : ∀ q, cmn q a b (k step.k) s t = cmn q a b (k2 step.k) s t := by
        intro q
        unfold cmn
        have hkk := h step.k
        have : add32 (k step.k) t = add32 (k2 step.k) t := by
          unfold add32; omega
        rw [this]
      cases r <;> simp only [jsOp, ff, gg, hh, ii, hx]
    cases hs : step.slot <;> simp only [jsApplyStep, hs, hop]
  have hfold : ∀ (l : List MDStep) st,
      l.foldl (jsApplyStep k) st = l.foldl (jsApplyStep k2) st := by
    intro l
    induction l with
    | nil => intro st; rfl
    | cons s t ih => intro st; rw [List.foldl_cons, List.foldl_cons, hstep, ih]
  rw [hfold]

/-- `md5blk` (lines 668-674): 16 little-endian words from a 64-character
chunk (word `i` is built from characters `4i … 4i+3`). -/
def md5blk (s : List ℕ) : ℕ → ℕ := fun i =>
  s.getD (4 * i) 0 + (s.getD (4 * i + 1) 0) <<< 8 +
    (s.getD (4 * i + 2) 0) <<< 16 + (s.getD (4 * i + 3) 0) <<< 24

/-- The initial state of `md51` (line 685), with the source's signed
constants. -/
def md51init : MDState :=
  ⟨1732584193, js32 (-271733879), js32 (-1732584194), 271733878⟩

/-- The main loop of `md51` (lines 686-689): consume 64-character chunks,
returning the final state and the remainder `s.substring(i - 64)`. -/
def md51blocks (st : MDState) (s : List ℕ) : MDState × List ℕ :=
  if h : 64 ≤ s.length then
    md51blocks (md5cycle st (md5blk (s.take 64))) (s.drop 64)
  else (st, s)
termination_by s.length
decreasing_by simp only [List.length_drop]; omega

/-- One `tail[i >> 2] |= c << ((i % 4) << 3)` assignment (lines 692-694),
with the int32 truncation of the shift made explicit. -/
def orShift (tail : List ℕ) (i c : ℕ) : List ℕ :=
  tail.set (i / 4) ((tail.getD (i / 4) 0) ||| ((c <<< ((i % 4) * 8)) % 4294967296))

/-- The `tail` array after the character loop (lines 690-693). -/
def buildTail (rem : List ℕ) : List ℕ :=
  (List.range rem.length).foldl (fun tl i => orShift tl i (rem.getD i 0))
    (List.replicate 16 0)

/-- The tail handling of `md51` (lines 690-701): append the `0x80` marker,
if more than 55 characters remain run an extra cycle and reset the tail to
zeros, store `n * 8` in `tail[14]`, and run the final cycle. -/
def md51tail (state : MDState) (rem : List ℕ) (n : ℕ) : MDState :=
  let tail1 := orShift (buildTail rem) rem.length 128
  if 55 < rem.length then
    md5cycle (md5cycle state (fun j => tail1.getD j 0))
      (fun j => ((List.replicate 16 0).set 14 (n * 8)).getD j 0)
  else
    md5cycle state (fun j => (tail1.set 14 (n * 8)).getD j 0)

/-- `md51` (lines 684-702) over the byte values of a binary string. -/
def md51 (s : List ℕ) : MDState :=
  let br := md51blocks md51init s
  md51tail br.1 br.2 s.length

/-- `hex_chr` (lines 724-726). -/
def hex_chr (n : ℕ) : Char := "0123456789abcdef".toList.getD n '0'

/-- `rhex` (lines 728-734): eight hex digits of one word, low byte first,
high nibble before low nibble. -/
def rhex (n : ℕ) : List Char :=
  (List.range 4).foldl (fun acc j =>
    acc ++ [hex_chr ((n >>> (j * 8 + 4)) &&& 15), hex_chr ((n >>> (j * 8)) &&& 15)]) []

/-- `hex` over the four state words (lines 736-741). -/
def md5hexOut (st : MDState) : List Char :=
  rhex st.a ++ rhex st.b ++ rhex st.c ++ rhex st.d

/-- `md5` (lines 569-755) on the byte values of a binary string (for
non-ASCII input the source first re-encodes to UTF-8 bytes, lines
749-753). -/
def md5 (s : List ℕ) : List Char := md5hexOut (md51 s)

/-- `utils.generateSign` (lines 979-982):
`md5(``${token}&${timestamp}&${appKey}&${data}``)`, over byte values
(38 is `&`). -/
def generateSign (token timestamp appKey data : List ℕ) : List Char :=
  md5 (token ++ [38] ++ timestamp ++ [38] ++ appKey ++ [38] ++ data)

/-- Modelled from the spec: RFC 1321 block words — each group of 4
consecutive bytes is a little-endian 32-bit word. -/
def refWords (block : List ℕ) : ℕ → ℕ := fun j =>
  block.getD (4 * j) 0 + block.getD (4 * j + 1) 0 * 256 +
    block.getD (4 * j + 2) 0 * 65536 + block.getD (4 * j + 3) 0 * 16777216

/-- Modelled from the spec: the RFC 1321 padding suffix for a message of
`n` bytes — `0x80`, zeros up to 56 mod 64, then the bit length `8n` as 8
little-endian bytes. -/
def padSuffix (n : ℕ) : List ℕ :=
  [128] ++ List.replicate ((64 + 56 - (n + 1) % 64) % 64) 0 ++
    (List.range 8).map (fun i => ((8 * n) >>> (8 * i)) % 256)

/-- Modelled from the spec: the padded message. -/
def refPad (msg : List ℕ) : List ℕ := msg ++ padSuffix msg.length

/-- Modelled from the spec: process the padded message in 64-byte blocks. -/
def refBlocks (st : MDState) (padded : List ℕ) : MDState :=
  if h : 64 ≤ padded.length then
    refBlocks (refCycle st (refWords (padded.take 64))) (padded.drop 64)
  else st
termination_by padded.length
decreasing_by simp only [List.length_drop]; omega

/-- Modelled from the spec: the RFC 1321 initial chaining values. -/
def refInit : MDState := ⟨0x67452301, 0xefcdab89, 0x98badcfe, 0x10325476⟩

/-- Modelled from the spec: the reference MD5 state of a byte message. -/
def refMd5 (msg : List ℕ) : MDState := refBlocks refInit (refPad msg)

/-- Modelled from the spec: the lowercase hex digest — the 16 state bytes
in little-endian word order, each byte as two hex digits. -/
def refDigest (st : MDState) : List Char :=
  (([st.a, st.b, st.c, st.d].map (fun w =>
      (List.range 4).map (fun i => (w >>> (8 * i)) % 256))).join).bind
    (fun byte => [hex_chr (byte / 16), hex_chr (byte % 16)])

/-! Supporting lemmas for the md5 equivalence. -/

theorem md51init_eq_refInit : md51init = refInit := by decide

theorem md5blk_eq_refWords (l : List ℕ) : md5blk l = refWords l := by
  funext i
  simp only [md5blk, refWords, Nat.shiftLeft_eq]

theorem getD_lt_256 (l : List ℕ) (hb : ∀ b ∈ l, b < 256) (p : ℕ) :
    l.getD p 0 < 256 := by
  by_cases hp : p < l.length
  · rw [List.getD_eq_getElem l 0 hp]
    exact hb _ (l.getElem_mem hp)
  · rw [List.getD_eq_default _ _ (Nat.le_of_not_lt hp)]
    norm_num

theorem getD_replicate_zero (k p : ℕ) : (List.replicate k (0 : ℕ)).getD p 0 = 0 := by
  by_cases hp : p < k
  · simp [List.getD, List.getElem?_replicate, hp]
  · simp [List.getD_eq_default, List.length_replicate, Nat.le_of_not_lt hp]

theorem getD_set_self (l : List ℕ) (i v : ℕ) (h : i < l.length) :
    (l.set i v).getD i 0 = v := by
  simp [List.getD, List.getElem?_set_self, h]

theorem getD_set_ne (l : List ℕ) (i j v : ℕ) (h : i ≠ j) :
    (l.set i v).getD j 0 = l.getD j 0 := by
  simp [List.getD, List.getElem?_set_ne h]

theorem foldl_orShift_length (idxs : List ℕ) (f : ℕ → ℕ) :
    ∀ tl : List ℕ,
      (idxs.foldl (fun t i => orShift t i (f i)) tl).length = tl.length := by
  induction idxs with
  | nil => intro tl; rfl
  | cons i t ih =>
      intro tl
      rw [List.foldl_cons, ih]
      simp [orShift, List.length_set]

theorem buildTail_length (rem : List ℕ) : (buildTail rem).length = 16 := by
  unfold buildTail
  rw [foldl_orShift_length]
  simp

theorem foldl_orShift_congr (idxs : List ℕ) (f g : ℕ → ℕ)
    (h : ∀ i ∈ idxs, f i = g i) :
    ∀ tl : List ℕ,
      idxs.foldl (fun t i => orShift t i (f i)) tl =
        idxs.foldl (fun t i => orShift t i (g i)) tl := by
  induction idxs with
  | nil => intro tl; rfl
  | cons i t ih =>
      intro tl
      rw [List.foldl_cons, List.foldl_cons, h i (by simp)]
      exact ih (fun i hi => h i (by simp [hi])) _

theorem buildTail_snoc (ys : List ℕ) (c : ℕ) :
    buildTail (ys ++ [c]) = orShift (buildTail ys) ys.length c := by
  unfold buildTail
  rw [List.length_append]
  simp only [List.length_cons, List.length_nil]
  rw [List.range_succ, List.foldl_append]
  simp only [List.foldl_cons, List.foldl_nil]
  rw [foldl_orShift_congr (List.range ys.length)
    (fun i => (ys ++ [c]).getD i 0) (fun i => ys.getD i 0)
    (fun i hi => List.getD_append ys [c] 0 i (List.mem_range.mp hi))]
  rw [List.getD_append_right ys [c] 0 ys.length (le_refl _)]
  simp

theorem lor_small (a c k : ℕ) (h : a < 2 ^ k) : a ||| c * 2 ^ k = a + c * 2 ^ k := by
  rw [Nat.lor_comm, mul_comm c, ← Nat.mul_add_lt_is_or h c]
  omega

/-- The character loop of `md51` builds exactly the 16 little-endian words
of the remainder. -/
theorem buildTail_words (rem : List ℕ) (hb : ∀ b ∈ rem, b < 256)
    (hlen : rem.length ≤ 64) :
    ∀ j, (buildTail rem).getD j 0 = refWords rem j := by
  induction rem using List.reverseRecOn with
  | nil =>
      intro j
      show (List.replicate 16 0).getD j 0 = refWords [] j
      rw [getD_replicate_zero]
      simp [refWords, List.getD]
  | append_singleton ys c ih =>
      intro j
      rw [buildTail_snoc]
      have hby : ∀ b ∈ ys, b < 256 := fun b hbm => hb b (by simp [hbm])
      have hc : c < 256 := hb c (by simp)
      have hr : ys.length ≤ 63 := by
        have h2 := hlen
        simp only [List.length_append, List.length_cons, List.length_nil] at h2
        omega
      have ihy := ih hby (by omega)
      have hpos_out : ∀ p, ys.length ≤ p → ys.getD p 0 = 0 :=
        fun p hp => List.getD_eq_default _ _ hp
      have happ_lt : ∀ p, p < ys.length → (ys ++ [c]).getD p 0 = ys.getD p 0 :=
        fun p hp => List.getD_append _ _ _ _ hp
      have happ_eq : (ys ++ [c]).getD ys.length 0 = c := by
        rw [List.getD_append_right _ _ _ _ (le_refl _)]
        simp
      have happ_gt : ∀ p, ys.length < p → (ys ++ [c]).getD p 0 = 0 := by
        intro p hp
        apply List.getD_eq_default
        simp only [List.length_append, List.length_cons, List.length_nil]
        omega
      have hbyte : ∀ p, ys.getD p 0 < 256 := getD_lt_256 ys hby
      unfold orShift
      by_cases hj : ys.length / 4 = j
      · subst hj
        rw [getD_set_self _ _ _ (by rw [buildTail_length]; omega)]
        rw [ihy, Nat.shiftLeft_eq]
        have hexp : ys.length % 4 * 8 ≤ 24 := by omega
        have hshift_lt : c * 2 ^ (ys.length % 4 * 8) < 4294967296 := by
          have h2 : (2 : ℕ) ^ (ys.length % 4 * 8) ≤ 2 ^ 24 :=
            Nat.pow_le_pow_right (by norm_num) hexp
          calc c * 2 ^ (ys.length % 4 * 8) ≤ 255 * 2 ^ 24 :=
                Nat.mul_le_mul (by omega) h2
            _ < 4294967296 := by norm_num
        rw [Nat.mod_eq_of_lt hshift_lt]
        have hbound : refWords ys (ys.length / 4) < 2 ^ (ys.length % 4 * 8) := by
          simp only [refWords]
          have hm4 : ys.length % 4 = 0 ∨ ys.length % 4 = 1 ∨ ys.length % 4 = 2 ∨
              ys.length % 4 = 3 := by omega
          rcases hm4 with hm | hm | hm | hm
          · rw [hm, show (2:ℕ) ^ (0 * 8) = 1 from by norm_num]
            rw [hpos_out (4 * (ys.length / 4)) (by omega)]
            rw [hpos_out (4 * (ys.length / 4) + 1) (by omega)]
            rw [hpos_out (4 * (ys.length / 4) + 2) (by omega)]
            rw [hpos_out (4 * (ys.length / 4) + 3) (by omega)]
            omega
          · rw [hm, show (2:ℕ) ^ (1 * 8) = 256 from by norm_num]
            rw [hpos_out (4 * (ys.length / 4) + 1) (by omega)]
            rw [hpos_out (4 * (ys.length / 4) + 2) (by omega)]
            rw [hpos_out (4 * (ys.length / 4) + 3) (by omega)]
            have b0 := hbyte (4 * (ys.length / 4))
            omega
          · rw [hm, show (2:ℕ) ^ (2 * 8) = 65536 from by norm_num]
            rw [hpos_out (4 * (ys.length / 4) + 2) (by omega)]
            rw [hpos_out (4 * (ys.length / 4) + 3) (by omega)]
            have b0 := hbyte (4 * (ys.length / 4))
            have b1 := hbyte (4 * (ys.length / 4) + 1)
            omega
          · rw [hm, show (2:ℕ) ^ (3 * 8) = 16777216 from by norm_num]
            rw [hpos_out (4 * (ys.length / 4) + 3) (by omega)]
            have b0 := hbyte (4 * (ys.length / 4))
            have b1 := hbyte (4 * (ys.length / 4) + 1)
            have b2 := hbyte (4 * (ys.length / 4) + 2)
            omega
        rw [lor_small _ c _ hbound]
        simp only [refWords]
        have hm4 : ys.length % 4 = 0 ∨ ys.length % 4 = 1 ∨ ys.length % 4 = 2 ∨
            ys.length % 4 = 3 := by omega
        rcases hm4 with hm | hm | hm | hm
        · rw [hm, show (2:ℕ) ^ (0 * 8) = 1 from by norm_num]
          rw [happ_gt (4 * (ys.length / 4) + 1) (by omega)]
          rw [happ_gt (4 * (ys.length / 4) + 2) (by omega)]
          rw [happ_gt (4 * (ys.length / 4) + 3) (by omega)]
          rw [hpos_out (4 * (ys.length / 4)) (by omega)]
          rw [hpos_out (4 * (ys.length / 4) + 1) (by omega)]
          rw [hpos_out (4 * (ys.length / 4) + 2) (by omega)]
          rw [hpos_out (4 * (ys.length / 4) + 3) (by omega)]
          rw [show 4 * (ys.length / 4) = ys.length from by omega, happ_eq]
          omega
        · rw [hm, show (2:ℕ) ^ (1 * 8) = 256 from by norm_num]
          rw [happ_lt (4 * (ys.length / 4)) (by omega)]
          rw [happ_gt (4 * (ys.length / 4) + 2) (by omega)]
          rw [happ_gt (4 * (ys.length / 4) + 3) (by omega)]
          rw [hpos_out (4 * (ys.length / 4) + 1) (by omega)]
          rw [hpos_out (4 * (ys.length / 4) + 2) (by omega)]
          rw [hpos_out (4 * (ys.length / 4) + 3) (by omega)]
          rw [show 4 * (ys.length / 4) + 1 = ys.length from by omega, happ_eq]
          omega
        · rw [hm, show (2:ℕ) ^ (2 * 8) = 65536 from by norm_num]
          rw [happ_lt (4 * (ys.length / 4)) (by omega)]
          rw [happ_lt (4 * (ys.length / 4) + 1) (by omega)]
          rw [happ_gt (4 * (ys.length / 4) + 3) (by omega)]
          rw [hpos_out (4 * (ys.length / 4) + 2) (by omega)]
          rw [hpos_out (4 * (ys.length / 4) + 3) (by omega)]
          rw [show 4 * (ys.length / 4) + 2 = ys.length from by omega, happ_eq]
          omega
        · rw [hm, show (2:ℕ) ^ (3 * 8) = 16777216 from by norm_num]
          rw [happ_lt (4 * (ys.length / 4)) (by omega)]
          rw [happ_lt (4 * (ys.length / 4) + 1) (by omega)]
          rw [happ_lt (4 * (ys.length / 4) + 2) (by omega)]
          rw [hpos_out (4 * (ys.length / 4) + 3) (by omega)]
          rw [show 4 * (ys.length / 4) + 3 = ys.length from by omega, happ_eq]
          omega
      · rw [getD_set_ne _ _ _ _ hj, ihy]
        have hpp : ∀ p, 4 * j ≤ p → p ≤ 4 * j + 3 →
            (ys ++ [c]).getD p 0 = ys.getD p 0 := by
          intro p hp1 hp2
          rcases lt_trichotomy p ys.length with hp | hp | hp
          · exact happ_lt p hp
          · exfalso
            apply hj
            omega
          · rw [happ_gt p hp, hpos_out p (by omega)]
        simp only [refWords]
        rw [hpp (4 * j) (le_refl _) (by omega),
          hpp (4 * j + 1) (by omega) (by omega),
          hpp (4 * j + 2) (by omega) (by omega),
          hpp (4 * j + 3) (by omega) (by omega)]

theorem refBlocks_done (st : MDState) (l : List ℕ) (h : l.length < 64) :
    refBlocks st l = st := by
  rw [refBlocks, dif_neg (by omega)]

theorem refBlocks_step (st : MDState) (l : List ℕ) (h : 64 ≤ l.length) :
    refBlocks st l = refBlocks (refCycle st (refWords (l.take 64))) (l.drop 64) := by
  rw [refBlocks, dif_pos h]

theorem md51blocks_done (st : MDState) (s : List ℕ) (h : s.length < 64) :
    md51blocks st s = (st, s) := by
  rw [md51blocks, dif_neg (by omega)]

theorem md51blocks_step (st : MDState) (s : List ℕ) (h : 64 ≤ s.length) :
    md51blocks st s =
      md51blocks (md5cycle st (md5blk (s.take 64))) (s.drop 64) := by
  rw [md51blocks, dif_pos h]

/-- The remainder left by the main loop: fewer than 64 bytes, the same
length modulo 64 as the input, and made of bytes of the input. -/
theorem md51blocks_spec : ∀ (m : ℕ) (s : List ℕ), s.length ≤ m →
    ∀ st : MDState,
    (md51blocks st s).2.length < 64 ∧
      s.length % 64 = (md51blocks st s).2.length % 64 ∧
      ∀ b ∈ (md51blocks st s).2, b ∈ s := by
  intro m
  induction m with
  | zero =>
      intro s hs st
      have hnil : s = [] := List.length_eq_zero.mp (by omega)
      subst hnil
      rw [md51blocks_done st [] (by simp)]
      exact ⟨by simp, by simp, by simp⟩
  | succ m ih =>
      intro s hs st
      by_cases h64 : 64 ≤ s.length
      · rw [md51blocks_step st s h64]
        have hd : (s.drop 64).length ≤ m := by
          simp only [List.length_drop]; omega
        obtain ⟨h1, h2, h3⟩ := ih (s.drop 64) hd (md5cycle st (md5blk (s.take 64)))
        refine ⟨h1, ?_, fun b hb => List.mem_of_mem_drop (h3 b hb)⟩
        rw [← h2]
        simp only [List.length_drop]
        omega
      · rw [md51blocks_done st s (by omega)]
        exact ⟨(by omega : s.length < 64), rfl, fun b hb => hb⟩

/-- Processing `s ++ suffix` through the reference block loop first
consumes exactly the blocks that the JS main loop consumes, reaching the
same intermediate state. -/
theorem refBlocks_align : ∀ (m : ℕ) (s : List ℕ), s.length ≤ m →
    ∀ (st : MDState) (suffix : List ℕ),
      refBlocks st (s ++ suffix) =
        refBlocks (md51blocks st s).1 ((md51blocks st s).2 ++ suffix) := by
  intro m
  induction m with
  | zero =>
      intro s hs st suffix
      have hnil : s = [] := List.length_eq_zero.mp (by omega)
      subst hnil
      rw [md51blocks_done st [] (by simp)]
  | succ m ih =>
      intro s hs st suffix
      by_cases h64 : 64 ≤ s.length
      · rw [md51blocks_step st s h64]
        have htake : (s ++ suffix).take 64 = s.take 64 :=
          List.take_append_of_le_length (by omega)
        have hdrop : (s ++ suffix).drop 64 = s.drop 64 ++ suffix :=
          List.drop_append_of_le_length (by omega)
        rw [refBlocks_step st (s ++ suffix)
          (by simp only [List.length_append]; omega)]
        rw [htake, hdrop, md5cycle_eq_refCycle, md5blk_eq_refWords]
        exact ih (s.drop 64) (by simp only [List.length_drop]; omega)
          (refCycle st (refWords (s.take 64))) suffix
      · rw [md51blocks_done st s (by omega)]

theorem getD_take (l : List ℕ) (m p : ℕ) (h : p < m) :
    (l.take m).getD p 0 = l.getD p 0 := by
  by_cases hp : p < l.length
  · rw [List.getD_eq_getElem _ _ (by simp only [List.length_take]; omega),
      List.getD_eq_getElem _ _ hp]
    exact List.getElem_take l
  · rw [List.getD_eq_default _ _ (by simp only [List.length_take]; omega),
      List.getD_eq_default _ _ (by omega)]

theorem getD_drop (l : List ℕ) (m p : ℕ) :
    (l.drop m).getD p 0 = l.getD (m + p) 0 := by
  by_cases hp : m + p < l.length
  · rw [List.getD_eq_getElem _ _ (by simp only [List.length_drop]; omega),
      List.getD_eq_getElem _ _ hp]
    exact List.getElem_drop l
  · rw [List.getD_eq_default _ _ (by simp only [List.length_drop]; omega),
      List.getD_eq_default _ _ (by omega)]

theorem refWords_congr (l1 l2 : List ℕ) (j : ℕ)
    (h : ∀ p, 4 * j ≤ p → p ≤ 4 * j + 3 → l1.getD p 0 = l2.getD p 0) :
    refWords l1 j = refWords l2 j := by
  simp only [refWords]
  rw [h (4 * j) (le_refl _) (by omega), h (4 * j + 1) (by omega) (by omega),
    h (4 * j + 2) (by omega) (by omega), h (4 * j + 3) (by omega) (by omega)]

/-- Pointwise description of the padding suffix. -/
theorem padSuffix_getD (n q : ℕ) :
    (padSuffix n).getD q 0 =
      if q = 0 then 128
      else if q - 1 < (64 + 56 - (n + 1) % 64) % 64 then 0
      else if q - 1 - (64 + 56 - (n + 1) % 64) % 64 < 8 then
        ((8 * n) >>> (8 * (q - 1 - (64 + 56 - (n + 1) % 64) % 64))) % 256
      else 0 := by
  have hps : padSuffix n =
      128 :: (List.replicate ((64 + 56 - (n + 1) % 64) % 64) 0 ++
        (List.range 8).map (fun i => ((8 * n) >>> (8 * i)) % 256)) := by
    simp [padSuffix, List.append_assoc]
  rw [hps]
  rcases q with _ | q
  · simp
  · rw [List.getD_cons_succ, if_neg (by omega)]
    simp only [Nat.add_sub_cancel]
    by_cases hq : q < (64 + 56 - (n + 1) % 64) % 64
    · rw [if_pos hq,
        List.getD_append _ _ _ _ (by simp only [List.length_replicate]; omega),
        getD_replicate_zero]
    · rw [if_neg hq,
        List.getD_append_right _ _ _ _
          (by simp only [List.length_replicate]; omega)]
      simp only [List.length_replicate]
      by_cases hq8 : q - (64 + 56 - (n + 1) % 64) % 64 < 8
      · rw [if_pos hq8,
          List.getD_eq_getElem _ _
            (by simp only [List.length_map, List.length_range]; omega)]
        simp
      · rw [if_neg hq8,
          List.getD_eq_default _ _
            (by simp only [List.length_map, List.length_range]; omega)]

/-- Pointwise description of the padded remainder. -/
theorem refPadRem_getD (rem : List ℕ) (n p : ℕ) :
    (rem ++ padSuffix n).getD p 0 =
      if p < rem.length then rem.getD p 0
      else (padSuffix n).getD (p - rem.length) 0 := by
  by_cases hp : p < rem.length
  · rw [if_pos hp, List.getD_append _ _ _ _ hp]
  · rw [if_neg hp, List.getD_append_right _ _ _ _ (Nat.le_of_not_lt hp)]

/-- The tail handling of `md51` computes exactly the reference block loop
on the remainder followed by the RFC padding suffix, provided the bit
length fits in 32 bits (`tail[14] = n * 8` is a single JS number). -/
theorem md51tail_eq_refBlocks (state : MDState) (rem : List ℕ) (n : ℕ)
    (hb : ∀ b ∈ rem, b < 256) (hr : rem.length < 64)
    (hn : 8 * n < 4294967296) (hmod : n % 64 = rem.length % 64) :
    md51tail state rem n = refBlocks state (rem ++ padSuffix n) := by
  have htail1 : orShift (buildTail rem) rem.length 128 =
      buildTail (rem ++ [128]) := (buildTail_snoc rem 128).symm
  have hw1 := buildTail_words (rem ++ [128])
    (by
      intro b hbm
      rcases List.mem_append.mp hbm with h | h
      · exact hb b h
      · rw [List.mem_singleton] at h
        omega)
    (by simp only [List.length_append, List.length_cons, List.length_nil]; omega)
  have hlenshift : ∀ i, 4 ≤ i → ((8 * n) >>> (8 * i)) % 256 = 0 := by
    intro i hi
    have h0 : (8 * n) >>> (8 * i) = 0 := by
      rw [Nat.shiftRight_eq_div_pow]
      apply Nat.div_eq_of_lt
      calc 8 * n < 4294967296 := hn
        _ = 2 ^ 32 := by norm_num
        _ ≤ 2 ^ (8 * i) := Nat.pow_le_pow_right (by norm_num) (by omega)
    rw [h0]
  by_cases hB : 55 < rem.length
  · -- two final blocks
    have hz : (64 + 56 - (n + 1) % 64) % 64 = 119 - rem.length := by omega
    have hlenb : (rem ++ padSuffix n).length = 128 := by
      simp only [padSuffix, List.length_append, List.length_replicate,
        List.length_map, List.length_range, List.length_cons, List.length_nil]
      omega
    have hfst : ∀ p, p < 64 →
        (rem ++ [128]).getD p 0 = (rem ++ padSuffix n).getD p 0 := by
      intro p hp
      rw [refPadRem_getD]
      by_cases hpr : p < rem.length
      · rw [if_pos hpr, List.getD_append _ _ _ _ hpr]
      · rw [if_neg hpr, padSuffix_getD]
        by_cases hpe : p = rem.length
        · rw [if_pos (by omega), hpe,
            List.getD_append_right _ _ _ _ (le_refl _), Nat.sub_self]
          simp
        · rw [if_neg (by omega), if_pos (by omega),
            List.getD_eq_default _ _
              (by simp only [List.length_append, List.length_cons,
                List.length_nil]; omega)]
    have hmid : ∀ p, 64 ≤ p → p < 120 → (rem ++ padSuffix n).getD p 0 = 0 := by
      intro p hp1 hp2
      rw [refPadRem_getD, if_neg (by omega), padSuffix_getD,
        if_neg (by omega), if_pos (by omega)]
    have hlen4B : ∀ i, i < 8 → (rem ++ padSuffix n).getD (120 + i) 0 =
        ((8 * n) >>> (8 * i)) % 256 := by
      intro i hi
      rw [refPadRem_getD, if_neg (by omega), padSuffix_getD,
        if_neg (by omega), if_neg (by omega), if_pos (by omega)]
      have hidx : 120 + i - rem.length - 1 -
          (64 + 56 - (n + 1) % 64) % 64 = i := by omega
      rw [hidx]
    have htake64 : ∀ p, ((rem ++ padSuffix n).take 64).getD p 0 =
        (rem ++ [128]).getD p 0 := by
      intro p
      by_cases hp : p < 64
      · rw [getD_take _ _ _ hp]
        exact (hfst p hp).symm
      · rw [List.getD_eq_default _ _ (by simp only [List.length_take]; omega),
          List.getD_eq_default _ _
            (by simp only [List.length_append, List.length_cons,
              List.length_nil]; omega)]
    have hfun1 : (fun j => (orShift (buildTail rem) rem.length 128).getD j 0) =
        refWords ((rem ++ padSuffix n).take 64) := by
      funext j
      rw [htail1, hw1 j]
      apply refWords_congr
      intro p hp1 hp2
      exact (htake64 p).symm
    have hfun2 : (fun j => ((List.replicate 16 0).set 14 (n * 8)).getD j 0) =
        refWords ((rem ++ padSuffix n).drop 64) := by
      funext j
      by_cases hj : j = 14
      · subst hj
        rw [getD_set_self _ _ _ (by simp)]
        have e0 : (rem ++ padSuffix n).getD (64 + 56) 0 =
            8 * n / 2 ^ (8 * 0) % 256 := by
          have h := hlen4B 0 (by norm_num)
          rw [Nat.shiftRight_eq_div_pow] at h
          exact h
        have e1 : (rem ++ padSuffix n).getD (64 + 57) 0 =
            8 * n / 2 ^ (8 * 1) % 256 := by
          have h := hlen4B 1 (by norm_num)
          rw [Nat.shiftRight_eq_div_pow] at h
          exact h
        have e2 : (rem ++ padSuffix n).getD (64 + 58) 0 =
            8 * n / 2 ^ (8 * 2) % 256 := by
          have h := hlen4B 2 (by norm_num)
          rw [Nat.shiftRight_eq_div_pow] at h
          exact h
        have e3 : (rem ++ padSuffix n).getD (64 + 59) 0 =
            8 * n / 2 ^ (8 * 3) % 256 := by
          have h := hlen4B 3 (by norm_num)
          rw [Nat.shiftRight_eq_div_pow] at h
          exact h
        show n * 8 = ((rem ++ padSuffix n).drop 64).getD 56 0 +
          ((rem ++ padSuffix n).drop 64).getD 57 0 * 256 +
          ((rem ++ padSuffix n).drop 64).getD 58 0 * 65536 +
          ((rem ++ padSuffix n).drop 64).getD 59 0 * 16777216
        rw [getD_drop, getD_drop, getD_drop, getD_drop, e0, e1, e2, e3,
          show (2:ℕ) ^ (8 * 0) = 1 from by norm_num,
          show (2:ℕ) ^ (8 * 1) = 256 from by norm_num,
          show (2:ℕ) ^ (8 * 2) = 65536 from by norm_num,
          show (2:ℕ) ^ (8 * 3) = 16777216 from by norm_num]
        omega
      · rw [getD_set_ne _ _ _ _ (Ne.symm hj), getD_replicate_zero]
        have hzero : ∀ p, 4 * j ≤ p → p ≤ 4 * j + 3 →
            ((rem ++ padSuffix n).drop 64).getD p 0 = 0 := by
          intro p hp1 hp2
          rw [getD_drop]
          by_cases hp120 : 64 + p < 120
          · exact hmid (64 + p) (by omega) hp120
          · by_cases hp128 : 64 + p < 128
            · have h4 := hlen4B (64 + p - 120) (by omega)
              rw [show 120 + (64 + p - 120) = 64 + p from by omega] at h4
              rw [h4]
              exact hlenshift _ (by omega)
            · rw [List.getD_eq_default _ _ (by omega)]
        show 0 = ((rem ++ padSuffix n).drop 64).getD (4 * j) 0 +
          ((rem ++ padSuffix n).drop 64).getD (4 * j + 1) 0 * 256 +
          ((rem ++ padSuffix n).drop 64).getD (4 * j + 2) 0 * 65536 +
          ((rem ++ padSuffix n).drop 64).getD (4 * j + 3) 0 * 16777216
        rw [hzero (4 * j) (le_refl _) (by omega),
          hzero (4 * j + 1) (by omega) (by omega),
          hzero (4 * j + 2) (by omega) (by omega),
          hzero (4 * j + 3) (by omega) (by omega)]
    rw [refBlocks_step state (rem ++ padSuffix n) (by omega)]
    rw [refBlocks_step _ ((rem ++ padSuffix n).drop 64)
      (by simp only [List.length_drop]; omega)]
    rw [List.take_of_length_le
      (show ((rem ++ padSuffix n).drop 64).length ≤ 64 from
        by simp only [List.length_drop]; omega)]
    rw [refBlocks_done _ _
      (by simp only [List.length_drop]; omega)]
    simp only [md51tail]
    rw [if_pos hB, md5cycle_eq_refCycle, md5cycle_eq_refCycle, hfun1, hfun2]
  · -- one final block
    have hz : (64 + 56 - (n + 1) % 64) % 64 = 55 - rem.length := by omega
    have hlenb : (rem ++ padSuffix n).length = 64 := by
      simp only [padSuffix, List.length_append, List.length_replicate,
        List.length_map, List.length_range, List.length_cons, List.length_nil]
      omega
    have hlen4 : ∀ i, i < 8 → (rem ++ padSuffix n).getD (56 + i) 0 =
        ((8 * n) >>> (8 * i)) % 256 := by
      intro i hi
      rw [refPadRem_getD, if_neg (by omega), padSuffix_getD,
        if_neg (by omega), if_neg (by omega), if_pos (by omega)]
      have hidx : 56 + i - rem.length - 1 -
          (64 + 56 - (n + 1) % 64) % 64 = i := by omega
      rw [hidx]
    have hApre : ∀ p, p < 56 →
        (rem ++ [128]).getD p 0 = (rem ++ padSuffix n).getD p 0 := by
      intro p hp
      rw [refPadRem_getD]
      by_cases hpr : p < rem.length
      · rw [if_pos hpr, List.getD_append _ _ _ _ hpr]
      · rw [if_neg hpr, padSuffix_getD]
        by_cases hpe : p = rem.length
        · rw [if_pos (by omega), hpe,
            List.getD_append_right _ _ _ _ (le_refl _), Nat.sub_self]
          simp
        · rw [if_neg (by omega), if_pos (by omega),
            List.getD_eq_default _ _
              (by simp only [List.length_append, List.length_cons,
                List.length_nil]; omega)]
    have hA15 : ∀ p, 60 ≤ p → (rem ++ padSuffix n).getD p 0 = 0 := by
      intro p hp
      rw [refPadRem_getD, if_neg (by omega), padSuffix_getD,
        if_neg (by omega), if_neg (by omega)]
      by_cases h8 : p - rem.length - 1 - (64 + 56 - (n + 1) % 64) % 64 < 8
      · rw [if_pos h8]
        apply hlenshift
        omega
      · rw [if_neg h8]
    have h14A : n * 8 = refWords (rem ++ padSuffix n) 14 := by
      have e0 : (rem ++ padSuffix n).getD (56 + 0) 0 =
          8 * n / 2 ^ (8 * 0) % 256 := by
        have h := hlen4 0 (by norm_num)
        rw [Nat.shiftRight_eq_div_pow] at h
        exact h
      have e1 : (rem ++ padSuffix n).getD (56 + 1) 0 =
          8 * n / 2 ^ (8 * 1) % 256 := by
        have h := hlen4 1 (by norm_num)
        rw [Nat.shiftRight_eq_div_pow] at h
        exact h
      have e2 : (rem ++ padSuffix n).getD (56 + 2) 0 =
          8 * n / 2 ^ (8 * 2) % 256 := by
        have h := hlen4 2 (by norm_num)
        rw [Nat.shiftRight_eq_div_pow] at h
        exact h
      have e3 : (rem ++ padSuffix n).getD (56 + 3) 0 =
          8 * n / 2 ^ (8 * 3) % 256 := by
        have h := hlen4 3 (by norm_num)
        rw [Nat.shiftRight_eq_div_pow] at h
        exact h
      show n * 8 = (rem ++ padSuffix n).getD (56 + 0) 0 +
        (rem ++ padSuffix n).getD (56 + 1) 0 * 256 +
        (rem ++ padSuffix n).getD (56 + 2) 0 * 65536 +
        (rem ++ padSuffix n).getD (56 + 3) 0 * 16777216
      rw [e0, e1, e2, e3,
        show (2:ℕ) ^ (8 * 0) = 1 from by norm_num,
        show (2:ℕ) ^ (8 * 1) = 256 from by norm_num,
        show (2:ℕ) ^ (8 * 2) = 65536 from by norm_num,
        show (2:ℕ) ^ (8 * 3) = 16777216 from by norm_num]
      omega
    have hfunA : (fun j =>
        ((orShift (buildTail rem) rem.length 128).set 14 (n * 8)).getD j 0) =
        refWords (rem ++ padSuffix n) := by
      funext j
      rw [htail1]
      by_cases hj : j = 14
      · subst hj
        rw [getD_set_self _ _ _ (by rw [buildTail_length]; norm_num)]
        exact h14A
      · rw [getD_set_ne _ _ _ _ (Ne.symm hj), hw1 j]
        apply refWords_congr
        intro p hp1 hp2
        by_cases hp56 : p < 56
        · exact hApre p hp56
        · have hp60 : 60 ≤ p := by omega
          rw [hA15 p hp60,
            List.getD_eq_default _ _
              (by simp only [List.length_append, List.length_cons,
                List.length_nil]; omega)]
    rw [refBlocks_step state (rem ++ padSuffix n) (by omega)]
    rw [List.take_of_length_le
      (show (rem ++ padSuffix n).length ≤ 64 from by omega)]
    rw [refBlocks_done _ _ (by simp only [List.length_drop]; omega)]
    simp only [md51tail]
    rw [if_neg hB, md5cycle_eq_refCycle, hfunA]

/-- `md51` computes the reference MD5 state, for byte-valued input whose
bit length fits in 32 bits. -/
theorem md51_eq_refMd5 (s : List ℕ) (hb : ∀ b ∈ s, b < 256)
    (hn : 8 * s.length < 4294967296) :
    md51 s = refMd5 s := by
  obtain ⟨h1, h2, h3⟩ := md51blocks_spec s.length s (le_refl _) md51init
  simp only [md51, refMd5, refPad]
  rw [← md51init_eq_refInit,
    refBlocks_align s.length s (le_refl _) md51init (padSuffix s.length)]
  exact md51tail_eq_refBlocks _ _ s.length
    (fun b hbm => hb b (h3 b hbm)) h1 hn h2

theorem nib_hi (w j : ℕ) :
    (w >>> (j * 8 + 4)) &&& 15 = ((w >>> (8 * j)) % 256) / 16 := by
  rw [show (15:ℕ) = 2 ^ 4 - 1 from by norm_num,
    Nat.and_pow_two_sub_one_eq_mod,
    Nat.shiftRight_eq_div_pow, Nat.shiftRight_eq_div_pow,
    show j * 8 + 4 = 8 * j + 4 from by omega, pow_add,
    ← Nat.div_div_eq_div_mul,
    show (2:ℕ) ^ 4 = 16 from by norm_num]
  omega

theorem nib_lo (w j : ℕ) :
    (w >>> (j * 8)) &&& 15 = ((w >>> (8 * j)) % 256) % 16 := by
  rw [show (15:ℕ) = 2 ^ 4 - 1 from by norm_num,
    Nat.and_pow_two_sub_one_eq_mod,
    Nat.shiftRight_eq_div_pow, Nat.shiftRight_eq_div_pow,
    show j * 8 = 8 * j from by omega,
    show (2:ℕ) ^ 4 = 16 from by norm_num]
  omega

/-- `rhex` emits the word's four bytes low-byte-first, each byte as high
nibble then low nibble. -/
theorem rhex_eq (w : ℕ) :
    rhex w = [hex_chr (((w >>> (8 * 0)) % 256) / 16),
      hex_chr (((w >>> (8 * 0)) % 256) % 16),
      hex_chr (((w >>> (8 * 1)) % 256) / 16),
      hex_chr (((w >>> (8 * 1)) % 256) % 16),
      hex_chr (((w >>> (8 * 2)) % 256) / 16),
      hex_chr (((w >>> (8 * 2)) % 256) % 16),
      hex_chr (((w >>> (8 * 3)) % 256) / 16),
      hex_chr (((w >>> (8 * 3)) % 256) % 16)] := by
  show [] ++ [hex_chr ((w >>> (0 * 8 + 4)) &&& 15),
      hex_chr ((w >>> (0 * 8)) &&& 15)] ++
    [hex_chr ((w >>> (1 * 8 + 4)) &&& 15), hex_chr ((w >>> (1 * 8)) &&& 15)] ++
    [hex_chr ((w >>> (2 * 8 + 4)) &&& 15), hex_chr ((w >>> (2 * 8)) &&& 15)] ++
    [hex_chr ((w >>> (3 * 8 + 4)) &&& 15), hex_chr ((w >>> (3 * 8)) &&& 15)] = _
  rw [nib_hi w 0, nib_lo w 0, nib_hi w 1, nib_lo w 1, nib_hi w 2, nib_lo w 2,
    nib_hi w 3, nib_lo w 3]
  rfl

/-- The `hex` output of `md5` is the reference digest format. -/
theorem md5hexOut_eq_refDigest (st : MDState) :
    md5hexOut st = refDigest st := by
  simp only [md5hexOut, rhex_eq]
  rfl

/-- C9: for every token, timestamp, appKey and JSON body (as byte values,
38 being `&`), `utils.generateSign` returns exactly the lowercase hex
digest of reference RFC 1321 MD5 applied to the literal concatenation
`token&timestamp&appKey&data`, provided the concatenation's bit length
fits in 32 bits (the embedded implementation stores `n * 8` in a single
32-bit message word). -/
theorem C9_generateSign_is_md5 (token timestamp appKey data : List ℕ)
    (hb : ∀ b ∈ token ++ [38] ++ timestamp ++ [38] ++ appKey ++ [38] ++ data,
      b < 256)
    (hn : 8 * (token ++ [38] ++ timestamp ++ [38] ++ appKey ++ [38] ++
      data).length < 4294967296) :
    generateSign token timestamp appKey data =
      refDigest (refMd5 (token ++ [38] ++ timestamp ++ [38] ++ appKey ++
        [38] ++ data)) := by
  unfold generateSign md5
  rw [md51_eq_refMd5 _ hb hn, md5hexOut_eq_refDigest]

/-- Witness: C9 applied to empty token, timestamp, appKey and body. -/
theorem C9_generateSign_is_md5_witness :
    generateSign [] [] [] [] =
      refDigest (refMd5 ([] ++ [38] ++ [] ++ [38] ++ [] ++ [38] ++ [])) :=
  C9_generateSign_is_md5 [] [] [] [] (by decide) (by decide)

end AliRealPrice
